import Mathlib

/-!
# goav-examples: encode_audio.go and encode_video.go

A shallow embedding of the two example drivers and of their helper functions.

* Go `int` is the 64-bit two's-complement integer: values are `Int`, and the
  arithmetic of `abs` and of `44100 - v` wraps through `wrapInt`.
* Go `uint8` arithmetic of the video generator wraps through `u8`.
* The FFmpeg binding (`avcodec`, `avutil`) is not part of the repository: its
  constants and query functions are parameters of the definitions.
-/

namespace GoavExamples

/-! ## Machine integers -/

/-- Two's-complement wrap of a mathematical integer to a Go `int` (64 bits). -/
def wrapInt (x : Int) : Int := (x + 2 ^ 63) % 2 ^ 64 - 2 ^ 63

/-- Go `uint8(n)` of a non-negative value: the low eight bits. -/
def u8 (n : Nat) : Nat := n % 256

/-! ## encode_audio.go: negotiation helpers -/

/-- Source `abs` (encode_audio.go:15-20); the negation is a Go `int` negation. -/
def abs (x : Int) : Int :=
  if x < 0 then wrapInt (-x) else x

/-- Source `checkSampleFmt` (encode_audio.go:22-29) over the advertised
`codec.SampleFmts()` list. -/
def checkSampleFmt : List Int → Int → Bool
  | [], _ => false
  | v :: rest, sampleFmt => if v = sampleFmt then true else checkSampleFmt rest sampleFmt

/-- Loop of `selectSampleRate` (encode_audio.go:37-41): one iteration per entry,
threading `bestSamplerate`. -/
def selectSampleRateLoop : List Int → Int → Int
  | [], bestSamplerate => bestSamplerate
  | v :: rest, bestSamplerate =>
    if bestSamplerate = 0 ∨
        abs (wrapInt (44100 - v)) < abs (wrapInt (44100 - bestSamplerate)) then
      selectSampleRateLoop rest v
    else
      selectSampleRateLoop rest bestSamplerate

/-- Source `selectSampleRate` (encode_audio.go:31-43) over the advertised
`codec.SupportedSamplerates()` list. -/
def selectSampleRate (supportedSemplerates : List Int) : Int :=
  if supportedSemplerates.length = 0 then 44100
  else selectSampleRateLoop supportedSemplerates 0

/-- Loop of `selectChanelLayout` (encode_audio.go:52-59), threading
`bestChLayout` and `bestNbChannels`; `nbChannelsOf` stands for
`avutil.AvGetChannelLayoutNbChannels`. -/
def selectChanelLayoutLoop (nbChannelsOf : Nat → Int) : List Nat → Nat → Int → Nat
  | [], bestChLayout, _ => bestChLayout
  | v :: rest, bestChLayout, bestNbChannels =>
    if nbChannelsOf v > bestNbChannels then
      selectChanelLayoutLoop nbChannelsOf rest v (nbChannelsOf v)
    else
      selectChanelLayoutLoop nbChannelsOf rest bestChLayout bestNbChannels

/-- Source `selectChanelLayout` (encode_audio.go:45-61) over the advertised
`codec.ChannelLayouts()` list; `stereo` stands for `avutil.AV_CH_LAYOUT_STEREO`. -/
def selectChanelLayout (nbChannelsOf : Nat → Int) (stereo : Nat) (chanelLayouts : List Nat) : Nat :=
  if chanelLayouts.length = 0 then stereo
  else selectChanelLayoutLoop nbChannelsOf chanelLayouts 0 0

/-- The entries of an advertised rate list for which `44100 - v` and its
absolute value are representable in a Go `int`; every C `int` is one. -/
def RateInRange (v : Int) : Prop := 44100 - 2 ^ 63 < v ∧ v < 2 ^ 63

/-- Number of set bits among the low `n` bits of a mask. -/
def popcountBits : Nat → Nat → Int
  | 0, _ => 0
  | n + 1, v => (v % 2 : Nat) + popcountBits n (v / 2)

/-- Channel count of a 64-bit layout mask, as FFmpeg counts it. -/
def popcount (v : Nat) : Int := popcountBits 64 v

/-! ## The encoder and the sink (external collaborators) -/

/-- Contents of a packet or of one write. -/
abbrev Bytes := List Nat

/-- The two avutil status constants `encode` compares against. -/
structure AvErrors where
  AVERROR_EAGAIN : Int
  AVERROR_EOF : Int

/-- An encoder context as `encode` uses it: `SendFrame` answers a status,
`ReceivePacket` answers a status and leaves the packet's bytes in `pkt`. The
state `ε` is whatever the encoder remembers between calls; `φ` is the frame
type. -/
structure Encoder (ε φ : Type) where
  sendFrame : ε → Option φ → Int × ε
  receivePacket : ε → (Int × Bytes) × ε

/-- An `io.Writer`: `write` answers whether `err != nil`. A write without
error has taken all the bytes (the contract of `io.Writer`). -/
structure Sink (τ : Type) where
  write : τ → Bytes → Bool × τ

/-- What a run does to its collaborators, in program order. -/
inductive Event where
  | produce (i : Nat)
  | send (eos : Bool) (ret : Int)
  | receive (ret : Int) (data : Bytes)
  | write (data : Bytes) (failed : Bool)
  deriving DecidableEq

/-- How a call ends: it returns, it ends the process through `os.Exit(1)`, or
the fuel given to a drain loop ran out before the loop stopped. -/
inductive Outcome where
  | returned
  | fatal
  | unfinished
  deriving DecidableEq

/-- Result of a call: the outcome, the collaborators' states and the events of
the call. -/
structure Run (ε τ : Type) where
  outcome : Outcome
  enc : ε
  sink : τ
  log : List Event

/-- Chunks the sink took: the data of the writes that returned no error. -/
def written : List Event → List Bytes
  | [] => []
  | Event.write data false :: rest => data :: written rest
  | _ :: rest => written rest

/-- Packets the encoder handed out: the data of the packet requests whose
status is neither a stop status nor negative. -/
def packets (c : AvErrors) : List Event → List Bytes
  | [] => []
  | Event.receive ret data :: rest =>
    if ret = c.AVERROR_EAGAIN ∨ ret = c.AVERROR_EOF ∨ ret < 0 then packets c rest
    else data :: packets c rest
  | _ :: rest => packets c rest

/-- Number of end-of-stream submissions (sends of a nil frame) in a log. -/
def eosCount : List Event → Nat
  | [] => 0
  | Event.send true _ :: rest => eosCount rest + 1
  | _ :: rest => eosCount rest

/-- Number of frames produced in a log. -/
def produced : List Event → Nat
  | [] => 0
  | Event.produce _ :: rest => produced rest + 1
  | _ :: rest => produced rest

/-- The encoder, from state `e`, answers the successive packet requests with
the given (status, bytes) pairs and then with status `stop`. -/
def answers {ε φ : Type} (E : Encoder ε φ) : ε → List (Int × Bytes) → Int → Prop
  | e, [], stop => (E.receivePacket e).1.1 = stop
  | e, a :: rest, stop => (E.receivePacket e).1 = a ∧ answers E (E.receivePacket e).2 rest stop

/-- The sink, from state `t`, takes the successive chunks without error. -/
def accepts {τ : Type} (S : Sink τ) : τ → List Bytes → Prop
  | _, [] => True
  | t, p :: rest => (S.write t p).1 = false ∧ accepts S (S.write t p).2 rest

namespace EncodeAudio

/-- The `for ret >= 0` loop of `encode` (encode_audio.go:71-87). Each turn of
the loop uses one unit of fuel. -/
def encodeLoop {ε φ τ : Type} (E : Encoder ε φ) (S : Sink τ) (c : AvErrors) :
    Nat → Int → ε → τ → Run ε τ
  | 0, ret, e, t =>
    if ret ≥ 0 then ⟨Outcome.unfinished, e, t, []⟩ else ⟨Outcome.returned, e, t, []⟩
  | fuel + 1, ret, e, t =>
    if ret ≥ 0 then
      let rp := E.receivePacket e
      if rp.1.1 = c.AVERROR_EAGAIN ∨ rp.1.1 = c.AVERROR_EOF then
        ⟨Outcome.returned, rp.2, t, [Event.receive rp.1.1 rp.1.2]⟩
      else if rp.1.1 < 0 then
        ⟨Outcome.fatal, rp.2, t, [Event.receive rp.1.1 rp.1.2]⟩
      else
        let w := S.write t rp.1.2
        if w.1 then
          ⟨Outcome.fatal, rp.2, w.2, [Event.receive rp.1.1 rp.1.2, Event.write rp.1.2 true]⟩
        else
          let r := encodeLoop E S c fuel rp.1.1 rp.2 w.2
          ⟨r.outcome, r.enc, r.sink,
            Event.receive rp.1.1 rp.1.2 :: Event.write rp.1.2 false :: r.log⟩
    else ⟨Outcome.returned, e, t, []⟩

/-- Source `encode` (encode_audio.go:63-88). -/
def encode {ε φ τ : Type} (E : Encoder ε φ) (S : Sink τ) (c : AvErrors) (fuel : Nat)
    (frame : Option φ) (e : ε) (t : τ) : Run ε τ :=
  let sf := E.sendFrame e frame
  if sf.1 < 0 then
    ⟨Outcome.fatal, sf.2, t, [Event.send frame.isNone sf.1]⟩
  else
    let r := encodeLoop E S c fuel sf.1 sf.2 t
    ⟨r.outcome, r.enc, r.sink, Event.send frame.isNone sf.1 :: r.log⟩

end EncodeAudio

namespace EncodeVideo

/-- The `for ret >= 0` loop of `encode` (encode_video.go:32-47). Each turn of
the loop uses one unit of fuel. -/
def encodeLoop {ε φ τ : Type} (E : Encoder ε φ) (S : Sink τ) (c : AvErrors) :
    Nat → Int → ε → τ → Run ε τ
  | 0, ret, e, t =>
    if ret ≥ 0 then ⟨Outcome.unfinished, e, t, []⟩ else ⟨Outcome.returned, e, t, []⟩
  | fuel + 1, ret, e, t =>
    if ret ≥ 0 then
      let rp := E.receivePacket e
      if rp.1.1 = c.AVERROR_EAGAIN ∨ rp.1.1 = c.AVERROR_EOF then
        ⟨Outcome.returned, rp.2, t, [Event.receive rp.1.1 rp.1.2]⟩
      else if rp.1.1 < 0 then
        ⟨Outcome.fatal, rp.2, t, [Event.receive rp.1.1 rp.1.2]⟩
      else
        let w := S.write t rp.1.2
        if w.1 then
          ⟨Outcome.fatal, rp.2, w.2, [Event.receive rp.1.1 rp.1.2, Event.write rp.1.2 true]⟩
        else
          let r := encodeLoop E S c fuel rp.1.1 rp.2 w.2
          ⟨r.outcome, r.enc, r.sink,
            Event.receive rp.1.1 rp.1.2 :: Event.write rp.1.2 false :: r.log⟩
    else ⟨Outcome.returned, e, t, []⟩

/-- Source `encode` (encode_video.go:20-48); the line it prints to standard
output for a non-nil frame is not part of the model. -/
def encode {ε φ τ : Type} (E : Encoder ε φ) (S : Sink τ) (c : AvErrors) (fuel : Nat)
    (frame : Option φ) (e : ε) (t : τ) : Run ε τ :=
  let sf := E.sendFrame e frame
  if sf.1 < 0 then
    ⟨Outcome.fatal, sf.2, t, [Event.send frame.isNone sf.1]⟩
  else
    let r := encodeLoop E S c fuel sf.1 sf.2 t
    ⟨r.outcome, r.enc, r.sink, Event.send frame.isNone sf.1 :: r.log⟩

end EncodeVideo

/-! ## Frame buffers -/

/-- One store into a buffer viewed as a map from offsets to values. -/
def store (buf : Nat → Nat) (off v : Nat) : Nat → Nat :=
  fun o => if o = off then v else buf o

namespace EncodeAudio

/-- The capability lists of the codec that `main` consults. -/
structure Codec where
  sampleFmts : List Int
  supportedSamplerates : List Int
  channelLayouts : List Nat

/-- The `float64` phase of the tone generator. `zero` is `t = 0`, `advance sr`
is `t += tincr` with `tincr = 2.0 * math.Pi * 440.0 / float64(sr)`, and
`sample t` is `uint16(math.Sin(t) * 10000)`. -/
structure Tone (θ : Type) where
  zero : θ
  advance : Int → θ → θ
  sample : θ → Nat

/-- The audio frame handed to the encoder: `frame.Data[0]` as 16-bit slots
(slot `s` is the `uint16` at byte offset `2 * s`). -/
structure AudioFrame where
  samples : Nat → Nat

/-- State of the generator: the buffer, the phase, and the slots stored to so
far, in program order. -/
structure Fill (θ : Type) where
  buf : Nat → Nat
  t : θ
  stores : List Nat

/-- One `*(*uint16)(samples + slot*2) = v`. -/
def Fill.put {θ : Type} (st : Fill θ) (slot v : Nat) : Fill θ :=
  { st with buf := store st.buf slot v, stores := st.stores ++ [slot] }

/-- Body of the `j` loop of `main` (encode_audio.go:176-180): the store at
byte offset `j*2*2`, the `k` loop from 1 while `k < c.Channels()` storing at
byte offset `(j*2+k)*2`, then `t += tincr`. -/
def sampleStep {θ : Type} (tone : Tone θ) (sampleRate channels : Int) (v : Nat)
    (st : Fill θ) (j : Nat) : Fill θ :=
  let st1 := st.put (j * 2) v
  let st2 := (List.range' 1 (channels.toNat - 1)).foldl (fun s k => s.put (j * 2 + k) v) st1
  { st2 with t := tone.advance sampleRate st2.t }

/-- Lines 174-181 of `main`: `v` is computed from the phase at the start of
the frame, then the `j` loop runs from 0 while `j < c.FrameSize()`. -/
def fillFrame {θ : Type} (tone : Tone θ) (sampleRate frameSize channels : Int)
    (st : Fill θ) : Fill θ :=
  let v := tone.sample st.t
  (List.range frameSize.toNat).foldl (sampleStep tone sampleRate channels v) st

/-- Everything outside the program that one run of the audio driver meets. -/
structure Env (ε τ θ : Type) where
  args : List String
  AV_SAMPLE_FMT_S16 : Int
  AV_CH_LAYOUT_STEREO : Nat
  nbChannelsOf : Nat → Int
  errs : AvErrors
  findEncoder : Option Codec
  allocContext3 : Bool
  open2 : Int
  openFile : Bool
  packetAlloc : Bool
  frameAlloc : Bool
  frameSize : Int
  frameGetBuffer : Int
  buffer0 : Nat → Nat
  makeWritable : Nat → Int
  tone : Tone θ
  enc : Encoder ε AudioFrame
  enc0 : ε
  sink : Sink τ
  sink0 : τ

/-- The parameters `main` sets on the context before opening the codec. -/
structure Config where
  sampleFmt : Int
  sampleRate : Int
  channelLayout : Nat
  channels : Int
  deriving DecidableEq

/-- Result of a run of `main`. -/
structure MainRun where
  outcome : Outcome
  config : Option Config
  log : List Event

/-- The frame loop of `main` (encode_audio.go:167-184): `n` iterations are
left and `i` is the loop variable. -/
def frameLoop {ε τ θ : Type} (env : Env ε τ θ) (cfg : Config) (fuel : Nat) :
    Nat → Nat → Fill θ → ε → τ → Run ε τ
  | 0, _, _, e, t => ⟨Outcome.returned, e, t, []⟩
  | n + 1, i, st, e, t =>
    if env.makeWritable i < 0 then ⟨Outcome.fatal, e, t, []⟩
    else
      let st1 := fillFrame env.tone cfg.sampleRate env.frameSize cfg.channels st
      let r := encode env.enc env.sink env.errs fuel (some ⟨st1.buf⟩) e t
      match r.outcome with
      | Outcome.returned =>
        let r2 := frameLoop env cfg fuel n (i + 1) st1 r.enc r.sink
        ⟨r2.outcome, r2.enc, r2.sink, Event.produce i :: (r.log ++ r2.log)⟩
      | o => ⟨o, r.enc, r.sink, Event.produce i :: r.log⟩

/-- Lines 135-186 of `main`: everything after the codec is open. -/
def encodeAll {ε τ θ : Type} (env : Env ε τ θ) (cfg : Config) (fuel : Nat) : MainRun :=
  if env.openFile = false then ⟨Outcome.fatal, some cfg, []⟩
  else if env.packetAlloc = false then ⟨Outcome.fatal, some cfg, []⟩
  else if env.frameAlloc = false then ⟨Outcome.fatal, some cfg, []⟩
  else if env.frameGetBuffer < 0 then ⟨Outcome.fatal, some cfg, []⟩
  else
    let r := frameLoop env cfg fuel 200 0 ⟨env.buffer0, env.tone.zero, []⟩ env.enc0 env.sink0
    match r.outcome with
    | Outcome.returned =>
      let f := encode env.enc env.sink env.errs fuel none r.enc r.sink
      ⟨f.outcome, some cfg, r.log ++ f.log⟩
    | o => ⟨o, some cfg, r.log⟩

/-- Source `main` (encode_audio.go:90-191). -/
def main {ε τ θ : Type} (env : Env ε τ θ) (fuel : Nat) : MainRun :=
  if env.args.length ≤ 1 then ⟨Outcome.fatal, none, []⟩
  else
    match env.findEncoder with
    | none => ⟨Outcome.fatal, none, []⟩
    | some codec =>
      if env.allocContext3 = false then ⟨Outcome.fatal, none, []⟩
      else if checkSampleFmt codec.sampleFmts env.AV_SAMPLE_FMT_S16 = false then
        ⟨Outcome.fatal, none, []⟩
      else
        let channelLayout :=
          selectChanelLayout env.nbChannelsOf env.AV_CH_LAYOUT_STEREO codec.channelLayouts
        let cfg : Config :=
          ⟨env.AV_SAMPLE_FMT_S16, selectSampleRate codec.supportedSamplerates, channelLayout,
            env.nbChannelsOf channelLayout⟩
        if env.open2 < 0 then ⟨Outcome.fatal, some cfg, []⟩
        else encodeAll env cfg fuel

end EncodeAudio

namespace EncodeVideo

/-- Source `endcode` (encode_video.go:18). -/
def endcode : Bytes := [0, 0, 1, 0xb7]

/-- The three planes of the frame, each a map from byte offsets to bytes. -/
structure Planes where
  data0 : Nat → Nat
  data1 : Nat → Nat
  data2 : Nat → Nat

/-- The video frame handed to the encoder. -/
structure VideoFrame where
  planes : Planes
  pts : Nat

/-- The `Y` loops of `main` (encode_video.go:142-147). The loop variables are
`uint8`: the bounds are `uint8(c.Height())` and `uint8(c.Width())`, and
`v = x + y + i*3` is `uint8` arithmetic. `dataItemSize` is 1. -/
def fillLuma (width height linesize i : Nat) (d : Nat → Nat) : Nat → Nat :=
  (List.range (u8 height)).foldl
    (fun d y => (List.range (u8 width)).foldl
      (fun d x => store d (y * linesize + x * 1) (u8 (u8 (x + y) + u8 (i * 3)))) d) d

/-- The `Cb` part of the chroma loops of `main` (encode_video.go:149-152):
bounds `uint8(c.Height())/2` and `uint8(c.Width())/2`, `v = 128 + y + i*2`. -/
def fillCb (width height linesize i : Nat) (d : Nat → Nat) : Nat → Nat :=
  (List.range (u8 height / 2)).foldl
    (fun d y => (List.range (u8 width / 2)).foldl
      (fun d x => store d (y * linesize + x * 1) (u8 (u8 (128 + y) + u8 (i * 2)))) d) d

/-- The `Cr` part of the chroma loops of `main` (encode_video.go:149-154):
same bounds, `v = 64 + x + i*5`. -/
def fillCr (width height linesize i : Nat) (d : Nat → Nat) : Nat → Nat :=
  (List.range (u8 height / 2)).foldl
    (fun d y => (List.range (u8 width / 2)).foldl
      (fun d x => store d (y * linesize + x * 1) (u8 (u8 (64 + x) + u8 (i * 5)))) d) d

/-- Lines 140-156 of `main`: the dummy image of frame `i`. The two chroma
planes are distinct buffers, so the interleaved stores of the source loop
are the two plane fills. -/
def fillFrame (width height ls0 ls1 ls2 i : Nat) (p : Planes) : Planes :=
  ⟨fillLuma width height ls0 i p.data0, fillCb width height ls1 i p.data1,
    fillCr width height ls2 i p.data2⟩

/-- Everything outside the program that one run of the video driver meets. -/
structure Env (ε τ : Type) where
  args : List String
  errs : AvErrors
  openFile : Bool
  findEncoderByName : Bool
  allocContext3 : Bool
  packetAlloc : Bool
  open2 : Int
  frameAlloc : Bool
  frameGetBuffer : Int
  linesize0 : Nat
  linesize1 : Nat
  linesize2 : Nat
  planes0 : Planes
  makeWritable : Nat → Int
  enc : Encoder ε VideoFrame
  enc0 : ε
  sink : Sink τ
  sink0 : τ

/-- Result of a run of `main`: the outcome, the state the output file is left
in, and the events. -/
structure MainRun (τ : Type) where
  outcome : Outcome
  sink : τ
  log : List Event

/-- The frame loop of `main` (encode_video.go:133-161): `n` iterations are
left and `i` is the loop variable; width 325 and height 288 are what `main`
set on the context. -/
def frameLoop {ε τ : Type} (env : Env ε τ) (fuel : Nat) :
    Nat → Nat → Planes → ε → τ → Run ε τ
  | 0, _, _, e, t => ⟨Outcome.returned, e, t, []⟩
  | n + 1, i, p, e, t =>
    if env.makeWritable i < 0 then ⟨Outcome.fatal, e, t, []⟩
    else
      let p1 := fillFrame 325 288 env.linesize0 env.linesize1 env.linesize2 i p
      let r := encode env.enc env.sink env.errs fuel (some ⟨p1, i⟩) e t
      match r.outcome with
      | Outcome.returned =>
        let r2 := frameLoop env fuel n (i + 1) p1 r.enc r.sink
        ⟨r2.outcome, r2.enc, r2.sink, Event.produce i :: (r.log ++ r2.log)⟩
      | o => ⟨o, r.enc, r.sink, Event.produce i :: r.log⟩

/-- Lines 130-170 of `main`: the frame loop, the flush and the end code. -/
def encodeAll {ε τ : Type} (env : Env ε τ) (fuel : Nat) : MainRun τ :=
  let r := frameLoop env fuel 25 0 env.planes0 env.enc0 env.sink0
  match r.outcome with
  | Outcome.returned =>
    let f := encode env.enc env.sink env.errs fuel none r.enc r.sink
    match f.outcome with
    | Outcome.returned =>
      let w := env.sink.write f.sink endcode
      if w.1 then ⟨Outcome.fatal, w.2, r.log ++ f.log ++ [Event.write endcode true]⟩
      else ⟨Outcome.returned, w.2, r.log ++ f.log ++ [Event.write endcode false]⟩
    | o => ⟨o, f.sink, r.log ++ f.log⟩
  | o => ⟨o, r.sink, r.log⟩

/-- Source `main` (encode_video.go:50-175). The output file is `env.sink`, in
state `env.sink0` when `os.OpenFile` (line 64) has opened it. -/
def main {ε τ : Type} (env : Env ε τ) (fuel : Nat) : MainRun τ :=
  if env.args.length ≤ 2 then ⟨Outcome.fatal, env.sink0, []⟩
  else if env.openFile = false then ⟨Outcome.fatal, env.sink0, []⟩
  else if env.findEncoderByName = false then ⟨Outcome.fatal, env.sink0, []⟩
  else if env.allocContext3 = false then ⟨Outcome.fatal, env.sink0, []⟩
  else if env.packetAlloc = false then ⟨Outcome.fatal, env.sink0, []⟩
  else if env.open2 < 0 then ⟨Outcome.fatal, env.sink0, []⟩
  else if env.frameAlloc = false then ⟨Outcome.fatal, env.sink0, []⟩
  else if env.frameGetBuffer < 0 then ⟨Outcome.fatal, env.sink0, []⟩
  else encodeAll env fuel

end EncodeVideo

/-! ## Vocabulary of the contracts -/

/-- The three causes of a fatal end of one `encode` call: the submission
status `sendRet` is negative, or some packet request of the call answered a
negative status that is neither stop status, or some write of the call
returned an error. -/
def FatalCause (c : AvErrors) (sendRet : Int) (log : List Event) : Prop :=
  sendRet < 0 ∨
  (∃ ret data, Event.receive ret data ∈ log ∧
    ret < 0 ∧ ret ≠ c.AVERROR_EAGAIN ∧ ret ≠ c.AVERROR_EOF) ∨
  (∃ data, Event.write data true ∈ log)

/-- Some packet request of the call answered `AVERROR_EAGAIN` or `AVERROR_EOF`. -/
def StopAnswered (c : AvErrors) (log : List Event) : Prop :=
  ∃ ret data, Event.receive ret data ∈ log ∧
    (ret = c.AVERROR_EAGAIN ∨ ret = c.AVERROR_EOF)

/-- State of the encoder after `n` packet requests. -/
def drainState {ε φ : Type} (E : Encoder ε φ) : ε → Nat → ε
  | e, 0 => e
  | e, n + 1 => drainState E (E.receivePacket e).2 n

/-- State of a sink after it was given the chunks one after the other. -/
def writeAll {τ : Type} (S : Sink τ) : τ → List Bytes → τ
  | t, [] => t
  | t, p :: rest => writeAll S (S.write t p).2 rest

/-- The sink is append-only for the reading `contents` of its state: a write
without error keeps the bytes it held and puts the new bytes after them. -/
def Appends {τ : Type} (S : Sink τ) (contents : τ → Bytes) : Prop :=
  ∀ t d, (S.write t d).1 = false → contents (S.write t d).2 = contents t ++ d

/-- A call on sink state `t` that returned, whose accepted writes are exactly
the chunks `chunks` in that order, which leaves the sink in the state that
taking these chunks one after the other gives (for an append-only sink: its
old bytes followed by the chunks' bytes), and whose last event is the packet
request answered `stop`. -/
def WroteExactly {ε τ : Type} (S : Sink τ) (t : τ) (r : Run ε τ) (chunks : List Bytes)
    (stop : Int) : Prop :=
  r.outcome = Outcome.returned ∧ written r.log = chunks ∧
    r.sink = writeAll S t chunks ∧
    (∀ contents : τ → Bytes, Appends S contents →
      contents r.sink = contents t ++ chunks.flatten) ∧
    ∃ pre d, r.log = pre ++ [Event.receive stop d]

/-- The events of a call that submitted with status `sendRet`, was handed the
packets `pkts` and then the status `stop`: the submission, then for each
packet its request and its accepted write, then the request answered `stop`;
and the encoder is left in the state after these `pkts.length + 1` requests
(`e1` is its state after the submission). -/
def DrainedScript {ε φ τ : Type} (E : Encoder ε φ) (e1 : ε) (eos : Bool) (sendRet : Int)
    (r : Run ε τ) (pkts : List (Int × Bytes)) (stop : Int) : Prop :=
  r.enc = drainState E e1 (pkts.length + 1) ∧
  ∃ d, r.log = Event.send eos sendRet ::
    ((pkts.flatMap fun a => [Event.receive a.1 a.2, Event.write a.2 false]) ++
      [Event.receive stop d])

/-! ## Sample collaborators -/

/-- Status values of a Linux build of FFmpeg: `AVERROR(EAGAIN)` and
`AVERROR_EOF`. -/
def linuxErrors : AvErrors := ⟨-11, -541478725⟩

/-- An encoder that answers every submission with `sendRet`, replays the
script held in its state to the packet requests, and answers `last` once the
script is used up. -/
def scriptedEncoder (φ : Type) (sendRet last : Int) : Encoder (List (Int × Bytes)) φ where
  sendFrame := fun e _ => (sendRet, e)
  receivePacket := fun e =>
    match e with
    | [] => ((last, []), [])
    | a :: rest => (a, rest)

/-- A sink that keeps what it is given and never fails. -/
def memorySink : Sink Bytes where
  write := fun t d => (false, t ++ d)

/-- An `os.File` as `os.OpenFile(filename, os.O_WRONLY|os.O_CREATE, 0755)`
gives it (encode_video.go:64): the bytes of the file and the current offset.
Opening neither truncates nor seeks to the end: the bytes are those the file
had (none for a new file) and the offset is 0. -/
structure FileState where
  data : Bytes
  offset : Nat
  deriving DecidableEq

/-- `Write` on such a file: the bytes go at the current offset, over what is
there, and lengthen the file where they reach past its end; the offset moves
past them. -/
def fileSink : Sink FileState where
  write := fun f d =>
    (false, ⟨f.data.take f.offset ++ d ++ f.data.drop (f.offset + d.length),
      f.offset + d.length⟩)

/-- A tone whose phase is the number of increments made and whose sample is
that number as a `uint16`: a stand-in for the sine with exact arithmetic. -/
def countingTone : EncodeAudio.Tone Nat where
  zero := 0
  advance := fun _ t => t + 1
  sample := fun t => t % 65536

/-- A run of the video driver in which every library call succeeds and the
encoder hands out two packets, both during the first call of `encode`. -/
def sampleVideoEnv : EncodeVideo.Env (List (Int × Bytes)) Bytes where
  args := ["encode_video", "out.mpg", "mpeg1video"]
  errs := linuxErrors
  openFile := true
  findEncoderByName := true
  allocContext3 := true
  packetAlloc := true
  open2 := 0
  frameAlloc := true
  frameGetBuffer := 0
  linesize0 := 352
  linesize1 := 176
  linesize2 := 176
  planes0 := ⟨fun _ => 0, fun _ => 0, fun _ => 0⟩
  makeWritable := fun _ => 0
  enc := scriptedEncoder EncodeVideo.VideoFrame 0 (-11)
  enc0 := [(0, [7]), (0, [8, 9])]
  sink := memorySink
  sink0 := []

/-- The same run of the video driver, with as output an existing file of ten
bytes 0xFF. -/
def staleFileVideoEnv : EncodeVideo.Env (List (Int × Bytes)) FileState where
  args := ["encode_video", "out.mpg", "mpeg1video"]
  errs := linuxErrors
  openFile := true
  findEncoderByName := true
  allocContext3 := true
  packetAlloc := true
  open2 := 0
  frameAlloc := true
  frameGetBuffer := 0
  linesize0 := 352
  linesize1 := 176
  linesize2 := 176
  planes0 := ⟨fun _ => 0, fun _ => 0, fun _ => 0⟩
  makeWritable := fun _ => 0
  enc := scriptedEncoder EncodeVideo.VideoFrame 0 (-11)
  enc0 := [(0, [7]), (0, [8, 9])]
  sink := fileSink
  sink0 := ⟨[255, 255, 255, 255, 255, 255, 255, 255, 255, 255], 0⟩

/-- A run of the audio driver on a codec with the given capability lists, in
which every library call succeeds; sample format 1 is `AV_SAMPLE_FMT_S16`,
layout mask 3 is stereo, and the frame size is 1152. -/
def sampleAudioEnv (codec : EncodeAudio.Codec) : EncodeAudio.Env (List (Int × Bytes)) Bytes Nat where
  args := ["encode_audio", "out.mp2"]
  AV_SAMPLE_FMT_S16 := 1
  AV_CH_LAYOUT_STEREO := 3
  nbChannelsOf := popcount
  errs := linuxErrors
  findEncoder := some codec
  allocContext3 := true
  open2 := 0
  openFile := true
  packetAlloc := true
  frameAlloc := true
  frameSize := 1152
  frameGetBuffer := 0
  buffer0 := fun _ => 0
  makeWritable := fun _ => 0
  tone := countingTone
  enc := scriptedEncoder EncodeAudio.AudioFrame 0 (-11)
  enc0 := [(0, [7]), (0, [8, 9])]
  sink := memorySink
  sink0 := []

/-! ## Descriptions of the generators, used to state what they store -/

/-- Storing the same value `v` at each slot of a list, in order. -/
def putAll (buf : Nat → Nat) (slots : List Nat) (v : Nat) : Nat → Nat :=
  slots.foldl (fun b s => store b s v) buf

/-- Slots the audio generator stores to for sample `j`: slot `2*j`, then slot
`2*j + k` for `1 <= k < channels`. -/
def sampleSlots (channels : Int) (j : Nat) : List Nat :=
  (j * 2) :: (List.range' 1 (channels.toNat - 1)).map (fun k => j * 2 + k)

/-- Slots the audio generator stores to for one frame, in program order. -/
def frameSlots (frameSize channels : Int) : List Nat :=
  (List.range frameSize.toNat).flatMap (sampleSlots channels)

/-! ## Negotiation: proofs -/

theorem abs_wrap_sub_eq (v : Int) (h : RateInRange v) :
    abs (wrapInt (44100 - v)) = |44100 - v| := by
  obtain ⟨h1, h2⟩ := h
  have hw : wrapInt (44100 - v) = 44100 - v := by
    unfold wrapInt
    have : (44100 - v + 2 ^ 63) % 2 ^ 64 = 44100 - v + 2 ^ 63 := by
      apply Int.emod_eq_of_lt <;> omega
    omega
  rw [hw]
  unfold abs
  split
  · rename_i hneg
    have hw2 : wrapInt (-(44100 - v)) = -(44100 - v) := by
      unfold wrapInt
      have : (-(44100 - v) + 2 ^ 63) % 2 ^ 64 = -(44100 - v) + 2 ^ 63 := by
        apply Int.emod_eq_of_lt <;> omega
      omega
    rw [hw2, abs_of_neg hneg]
  · rename_i hnn
    rw [abs_of_nonneg (by omega)]

theorem selectSampleRateLoop_spec (rest : List Int) :
    ∀ b : Int, b ≠ 0 → RateInRange b → (∀ v ∈ rest, v ≠ 0 ∧ RateInRange v) →
      (selectSampleRateLoop rest b = b ∧ ∀ v ∈ rest, |44100 - b| ≤ |44100 - v|) ∨
      (∃ pre post, rest = pre ++ selectSampleRateLoop rest b :: post ∧
        |44100 - selectSampleRateLoop rest b| < |44100 - b| ∧
        (∀ v ∈ pre, |44100 - selectSampleRateLoop rest b| < |44100 - v|) ∧
        ∀ v ∈ post, |44100 - selectSampleRateLoop rest b| ≤ |44100 - v|) := by
  induction rest with
  | nil =>
    intro b _ _ _
    left
    exact ⟨rfl, by simp⟩
  | cons v rest ih =>
    intro b hb hbr hall
    have hv := hall v (List.mem_cons_self _ _)
    have hrest : ∀ w ∈ rest, w ≠ 0 ∧ RateInRange w :=
      fun w hw => hall w (List.mem_cons_of_mem _ hw)
    unfold selectSampleRateLoop
    rw [abs_wrap_sub_eq v hv.2, abs_wrap_sub_eq b hbr]
    by_cases hlt : |44100 - v| < |44100 - b|
    · rw [if_pos (Or.inr hlt)]
      right
      rcases ih v hv.1 hv.2 hrest with ⟨heq, hmin⟩ | ⟨pre, post, hsplit, hlt2, hpre, hpost⟩
      · refine ⟨[], rest, ?_, ?_, ?_, ?_⟩
        · rw [heq]; rfl
        · rw [heq]; exact hlt
        · intro w hw; cases hw
        · rw [heq]; exact hmin
      · refine ⟨v :: pre, post, ?_, ?_, ?_, hpost⟩
        · rw [List.cons_append]
          exact congrArg (List.cons v) hsplit
        · exact lt_trans hlt2 hlt
        · intro w hw
          rcases List.mem_cons.mp hw with rfl | hw
          · exact hlt2
          · exact hpre w hw
    · have hnot : ¬ (b = 0 ∨ |44100 - v| < |44100 - b|) := by
        rintro (h | h)
        · exact hb h
        · exact hlt h
      rw [if_neg hnot]
      rcases ih b hb hbr hrest with ⟨heq, hmin⟩ | ⟨pre, post, hsplit, hlt2, hpre, hpost⟩
      · left
        refine ⟨heq, ?_⟩
        intro w hw
        rcases List.mem_cons.mp hw with rfl | hw
        · exact not_lt.mp hlt
        · exact hmin w hw
      · right
        refine ⟨v :: pre, post, ?_, hlt2, ?_, hpost⟩
        · rw [List.cons_append]
          exact congrArg (List.cons v) hsplit
        · intro w hw
          rcases List.mem_cons.mp hw with rfl | hw
          · exact lt_of_lt_of_le hlt2 (not_lt.mp hlt)
          · exact hpre w hw

theorem selectChanelLayoutLoop_spec (nb : Nat → Int) (rest : List Nat) :
    ∀ (b : Nat) (n : Int),
      (selectChanelLayoutLoop nb rest b n = b ∧ ∀ v ∈ rest, nb v ≤ n) ∨
      (∃ pre post, rest = pre ++ selectChanelLayoutLoop nb rest b n :: post ∧
        n < nb (selectChanelLayoutLoop nb rest b n) ∧
        (∀ v ∈ pre, nb v < nb (selectChanelLayoutLoop nb rest b n)) ∧
        ∀ v ∈ post, nb v ≤ nb (selectChanelLayoutLoop nb rest b n)) := by
  induction rest with
  | nil =>
    intro b n
    left
    exact ⟨rfl, by simp⟩
  | cons v rest ih =>
    intro b n
    unfold selectChanelLayoutLoop
    by_cases hgt : nb v > n
    · rw [if_pos hgt]
      right
      rcases ih v (nb v) with ⟨heq, hmax⟩ | ⟨pre, post, hsplit, hlt2, hpre, hpost⟩
      · refine ⟨[], rest, ?_, ?_, ?_, ?_⟩
        · rw [heq]; rfl
        · rw [heq]; exact hgt
        · intro w hw; cases hw
        · rw [heq]; exact hmax
      · refine ⟨v :: pre, post, ?_, ?_, ?_, hpost⟩
        · rw [List.cons_append]
          exact congrArg (List.cons v) hsplit
        · exact lt_trans hgt hlt2
        · intro w hw
          rcases List.mem_cons.mp hw with rfl | hw
          · exact hlt2
          · exact hpre w hw
    · rw [if_neg hgt]
      rcases ih b n with ⟨heq, hmax⟩ | ⟨pre, post, hsplit, hlt2, hpre, hpost⟩
      · left
        refine ⟨heq, ?_⟩
        intro w hw
        rcases List.mem_cons.mp hw with rfl | hw
        · exact not_lt.mp hgt
        · exact hmax w hw
      · right
        refine ⟨v :: pre, post, ?_, hlt2, ?_, hpost⟩
        · rw [List.cons_append]
          exact congrArg (List.cons v) hsplit
        · intro w hw
          rcases List.mem_cons.mp hw with rfl | hw
          · exact lt_of_le_of_lt (not_lt.mp hgt) hlt2
          · exact hpre w hw

/-- C3: on a non-empty advertised list of non-zero rates (each a Go int whose
distance to 44100 is representable), selectSampleRate returns an entry of the
list, no entry is closer to 44100 than the result, and every entry before the
result's position is strictly farther: the result is the first closest entry.
Distances are the mathematical absolute values, not the machine `abs`. -/
theorem selectSampleRate_first_closest (l : List Int) (hne : l ≠ [])
    (hall : ∀ v ∈ l, v ≠ 0 ∧ RateInRange v) :
    selectSampleRate l ∈ l ∧
    (∀ v ∈ l, |44100 - selectSampleRate l| ≤ |44100 - v|) ∧
    ∃ pre post, l = pre ++ selectSampleRate l :: post ∧
      ∀ v ∈ pre, |44100 - selectSampleRate l| < |44100 - v| := by
  cases l with
  | nil => exact absurd rfl hne
  | cons v0 rest =>
    have hv0 := hall v0 (List.mem_cons_self _ _)
    have hrest : ∀ w ∈ rest, w ≠ 0 ∧ RateInRange w :=
      fun w hw => hall w (List.mem_cons_of_mem _ hw)
    have hstart : selectSampleRate (v0 :: rest) = selectSampleRateLoop rest v0 := by
      simp [selectSampleRate, selectSampleRateLoop]
    rw [hstart]
    rcases selectSampleRateLoop_spec rest v0 hv0.1 hv0.2 hrest with
      ⟨heq, hmin⟩ | ⟨pre, post, hsplit, hlt, hpre, hpost⟩
    · rw [heq]
      refine ⟨List.mem_cons_self _ _, ?_, [], rest, rfl, ?_⟩
      · intro w hw
        rcases List.mem_cons.mp hw with rfl | hw
        · exact le_refl _
        · exact hmin w hw
      · intro w hw; cases hw
    · have hl : v0 :: rest = (v0 :: pre) ++ selectSampleRateLoop rest v0 :: post := by
        rw [List.cons_append]
        exact congrArg (List.cons v0) hsplit
      refine ⟨?_, ?_, v0 :: pre, post, hl, ?_⟩
      · rw [hl]; simp
      · intro w hw
        rw [hl] at hw
        rcases List.mem_append.mp hw with hw | hw
        · rcases List.mem_cons.mp hw with rfl | hw
          · exact le_of_lt hlt
          · exact le_of_lt (hpre w hw)
        · rcases List.mem_cons.mp hw with rfl | hw
          · exact le_refl _
          · exact hpost w hw
      · intro w hw
        rcases List.mem_cons.mp hw with rfl | hw
        · exact hlt
        · exact hpre w hw

theorem selectSampleRate_first_closest_witness :
    ([48000, 44000, 44200, 32000] : List Int) ≠ [] ∧
    selectSampleRate [48000, 44000, 44200, 32000] = 44000 ∧
    (selectSampleRate [48000, 44000, 44200, 32000] ∈ ([48000, 44000, 44200, 32000] : List Int) ∧
    (∀ v ∈ ([48000, 44000, 44200, 32000] : List Int),
      |44100 - selectSampleRate [48000, 44000, 44200, 32000]| ≤ |44100 - v|) ∧
    ∃ pre post, ([48000, 44000, 44200, 32000] : List Int) =
        pre ++ selectSampleRate [48000, 44000, 44200, 32000] :: post ∧
      ∀ v ∈ pre, |44100 - selectSampleRate [48000, 44000, 44200, 32000]| < |44100 - v|) :=
  ⟨by decide, by decide,
    selectSampleRate_first_closest [48000, 44000, 44200, 32000] (by decide)
      (by
        intro v hv
        simp only [List.mem_cons, List.mem_singleton, List.not_mem_nil, or_false] at hv
        rcases hv with rfl | rfl | rfl | rfl <;> exact ⟨by decide, by unfold RateInRange; decide⟩)⟩

/-- C4: on a non-empty advertised list of channel layouts, selectChanelLayout
returns a layout of the list whose channel count is the maximum over the list,
and every layout before the result's position has a strictly smaller count: it
is the first layout with the maximum count. The channel-count function of the
binding is a parameter, of which only this is used: on the list, a layout with
no channel is the empty mask 0. -/
theorem selectChanelLayout_first_max (nb : Nat → Int) (stereo : Nat) (l : List Nat)
    (hne : l ≠ []) (hnb : ∀ v ∈ l, nb v ≤ 0 → v = 0) :
    selectChanelLayout nb stereo l ∈ l ∧
    (∀ v ∈ l, nb v ≤ nb (selectChanelLayout nb stereo l)) ∧
    ∃ pre post, l = pre ++ selectChanelLayout nb stereo l :: post ∧
      ∀ v ∈ pre, nb v < nb (selectChanelLayout nb stereo l) := by
  have hstart : selectChanelLayout nb stereo l = selectChanelLayoutLoop nb l 0 0 := by
    unfold selectChanelLayout
    rw [if_neg]
    intro h
    exact hne (List.length_eq_zero.mp h)
  rw [hstart]
  rcases selectChanelLayoutLoop_spec nb l 0 0 with
    ⟨heq, hmax⟩ | ⟨pre, post, hsplit, _, hpre, hpost⟩
  · rw [heq]
    have hzero : ∀ v ∈ l, v = 0 := fun v hv => hnb v hv (hmax v hv)
    cases l with
    | nil => exact absurd rfl hne
    | cons v0 rest =>
      have h0 : v0 = 0 := hzero v0 (List.mem_cons_self _ _)
      subst h0
      refine ⟨List.mem_cons_self _ _, ?_, [], rest, rfl, ?_⟩
      · intro w hw
        rw [hzero w hw]
      · intro w hw; cases hw
  · refine ⟨?_, ?_, pre, post, hsplit, hpre⟩
    · have hm : selectChanelLayoutLoop nb l 0 0 ∈
          pre ++ selectChanelLayoutLoop nb l 0 0 :: post := by simp
      rw [← hsplit] at hm
      exact hm
    · intro w hw
      rw [hsplit] at hw
      rcases List.mem_append.mp hw with hw | hw
      · exact le_of_lt (hpre w hw)
      · rcases List.mem_cons.mp hw with hw | hw
        · rw [hw]
        · exact hpost w hw

theorem selectChanelLayout_first_max_witness :
    ([4, 3, 5] : List Nat) ≠ [] ∧
    (∀ v ∈ ([4, 3, 5] : List Nat), popcount v ≤ 0 → v = 0) ∧
    selectChanelLayout popcount 3 [4, 3, 5] = 3 ∧
    (selectChanelLayout popcount 3 [4, 3, 5] ∈ ([4, 3, 5] : List Nat) ∧
    (∀ v ∈ ([4, 3, 5] : List Nat), popcount v ≤ popcount (selectChanelLayout popcount 3 [4, 3, 5])) ∧
    ∃ pre post, ([4, 3, 5] : List Nat) = pre ++ selectChanelLayout popcount 3 [4, 3, 5] :: post ∧
      ∀ v ∈ pre, popcount v < popcount (selectChanelLayout popcount 3 [4, 3, 5])) :=
  ⟨by decide, by decide, by decide,
    selectChanelLayout_first_max popcount 3 [4, 3, 5] (by decide) (by decide)⟩

/-! ## The encode call: proofs -/

theorem video_encodeLoop_eq {ε φ τ : Type} (E : Encoder ε φ) (S : Sink τ) (c : AvErrors)
    (fuel : Nat) : ∀ (ret : Int) (e : ε) (t : τ),
      EncodeVideo.encodeLoop E S c fuel ret e t = EncodeAudio.encodeLoop E S c fuel ret e t := by
  induction fuel with
  | zero => intro ret e t; rfl
  | succ n ih =>
    intro ret e t
    simp only [EncodeVideo.encodeLoop, EncodeAudio.encodeLoop, ih]

theorem video_encode_eq {ε φ τ : Type} (E : Encoder ε φ) (S : Sink τ) (c : AvErrors)
    (fuel : Nat) (frame : Option φ) (e : ε) (t : τ) :
    EncodeVideo.encode E S c fuel frame e t = EncodeAudio.encode E S c fuel frame e t := by
  simp only [EncodeVideo.encode, EncodeAudio.encode, video_encodeLoop_eq]

theorem encodeLoop_fatal_iff {ε φ τ : Type} (E : Encoder ε φ) (S : Sink τ) (c : AvErrors)
    (fuel : Nat) : ∀ (ret : Int) (e : ε) (t : τ),
      ((EncodeAudio.encodeLoop E S c fuel ret e t).outcome = Outcome.fatal ↔
        (∃ r data, Event.receive r data ∈ (EncodeAudio.encodeLoop E S c fuel ret e t).log ∧
          r < 0 ∧ r ≠ c.AVERROR_EAGAIN ∧ r ≠ c.AVERROR_EOF) ∨
        (∃ data, Event.write data true ∈ (EncodeAudio.encodeLoop E S c fuel ret e t).log)) := by
  induction fuel with
  | zero =>
    intro ret e t
    unfold EncodeAudio.encodeLoop
    split <;> simp
  | succ n ih =>
    intro ret e t
    unfold EncodeAudio.encodeLoop
    by_cases hret : ret ≥ 0
    · rw [if_pos hret]
      by_cases hstop : (E.receivePacket e).1.1 = c.AVERROR_EAGAIN ∨
          (E.receivePacket e).1.1 = c.AVERROR_EOF
      · simp only [if_pos hstop]
        have h1 : ¬ ((E.receivePacket e).1.1 ≠ c.AVERROR_EAGAIN ∧
            (E.receivePacket e).1.1 ≠ c.AVERROR_EOF) := by
          rintro ⟨ha, hb⟩
          rcases hstop with h | h
          · exact ha h
          · exact hb h
        simp only [List.mem_singleton, Event.receive.injEq, reduceCtorEq, exists_false,
          or_false, false_iff, not_exists, not_and]
        rintro r data ⟨rfl, -⟩ _ ha hb
        exact h1 ⟨ha, hb⟩
      · simp only [if_neg hstop]
        have hs := not_or.mp hstop
        by_cases hneg : (E.receivePacket e).1.1 < 0
        · simp only [if_pos hneg, true_iff]
          left
          exact ⟨_, _, List.mem_singleton.mpr rfl, hneg, hs.1, hs.2⟩
        · simp only [if_neg hneg]
          by_cases hw : (S.write t (E.receivePacket e).1.2).1 = true
          · simp only [if_pos hw, true_iff]
            right
            exact ⟨(E.receivePacket e).1.2, by simp⟩
          · simp only [if_neg hw]
            rw [ih]
            simp only [List.mem_cons, Event.receive.injEq, reduceCtorEq, false_or,
              Event.write.injEq, and_false]
            constructor
            · rintro (⟨r, data, hm, h⟩ | ⟨data, hm⟩)
              · exact Or.inl ⟨r, data, Or.inr hm, h⟩
              · exact Or.inr ⟨data, hm⟩
            · rintro (⟨r, data, hm | hm, h⟩ | ⟨data, hm⟩)
              · exact absurd (hm.1 ▸ h.1) hneg
              · exact Or.inl ⟨r, data, hm, h⟩
              · exact Or.inr ⟨data, hm⟩
    · rw [if_neg hret]
      simp

theorem encodeLoop_stop_returns {ε φ τ : Type} (E : Encoder ε φ) (S : Sink τ) (c : AvErrors)
    (fuel : Nat) : ∀ (ret : Int) (e : ε) (t : τ),
      StopAnswered c (EncodeAudio.encodeLoop E S c fuel ret e t).log →
        (EncodeAudio.encodeLoop E S c fuel ret e t).outcome = Outcome.returned := by
  induction fuel with
  | zero =>
    intro ret e t
    unfold EncodeAudio.encodeLoop StopAnswered
    split <;> simp
  | succ n ih =>
    intro ret e t
    unfold EncodeAudio.encodeLoop
    by_cases hret : ret ≥ 0
    · rw [if_pos hret]
      by_cases hstop : (E.receivePacket e).1.1 = c.AVERROR_EAGAIN ∨
          (E.receivePacket e).1.1 = c.AVERROR_EOF
      · simp only [if_pos hstop, implies_true]
      · simp only [if_neg hstop]
        by_cases hneg : (E.receivePacket e).1.1 < 0
        · simp only [if_pos hneg, StopAnswered, List.mem_singleton, Event.receive.injEq]
          rintro ⟨r, data, ⟨rfl, -⟩, h⟩
          exact absurd h hstop
        · simp only [if_neg hneg]
          by_cases hw : (S.write t (E.receivePacket e).1.2).1 = true
          · simp only [if_pos hw, StopAnswered]
            rintro ⟨r, data, hm, h⟩
            simp only [List.mem_cons, List.mem_singleton, Event.receive.injEq, reduceCtorEq,
              or_false, List.not_mem_nil] at hm
            obtain ⟨rfl, -⟩ := hm
            exact absurd h hstop
          · simp only [if_neg hw]
            intro h
            apply ih
            obtain ⟨r, data, hm, h⟩ := h
            simp only [List.mem_cons, Event.receive.injEq, reduceCtorEq, false_or] at hm
            rcases hm with ⟨rfl, -⟩ | hm
            · exact absurd h hstop
            · exact ⟨r, data, hm, h⟩
    · rw [if_neg hret]
      simp [StopAnswered]

theorem audio_encode_fatal_iff {ε φ τ : Type} (E : Encoder ε φ) (S : Sink τ) (c : AvErrors)
    (fuel : Nat) (frame : Option φ) (e : ε) (t : τ) :
    ((EncodeAudio.encode E S c fuel frame e t).outcome = Outcome.fatal ↔
      FatalCause c (E.sendFrame e frame).1 (EncodeAudio.encode E S c fuel frame e t).log) := by
  unfold EncodeAudio.encode FatalCause
  by_cases hs : (E.sendFrame e frame).1 < 0
  · simp only [hs, ↓reduceIte, true_or]
  · simp only [hs, ↓reduceIte, false_or]
    rw [encodeLoop_fatal_iff]
    simp only [List.mem_cons, reduceCtorEq, false_or]

theorem audio_encode_stop_returns {ε φ τ : Type} (E : Encoder ε φ) (S : Sink τ)
    (c : AvErrors) (fuel : Nat) (frame : Option φ) (e : ε) (t : τ) :
    StopAnswered c (EncodeAudio.encode E S c fuel frame e t).log →
      (EncodeAudio.encode E S c fuel frame e t).outcome = Outcome.returned := by
  unfold EncodeAudio.encode
  by_cases hs : (E.sendFrame e frame).1 < 0
  · simp only [hs, ↓reduceIte, StopAnswered, List.mem_singleton, reduceCtorEq, false_and,
      exists_false, false_implies]
  · simp only [hs, ↓reduceIte]
    intro h
    apply encodeLoop_stop_returns
    obtain ⟨r, data, hm, h⟩ := h
    simp only [List.mem_cons, reduceCtorEq, false_or] at hm
    exact ⟨r, data, hm, h⟩

/-- C1: for every encoder, sink, frame, starting states and fuel, a call of
encode (audio variant and video variant) ends fatally exactly when the frame
submission returned a negative status, or a packet request of the call
returned a negative status other than AVERROR_EAGAIN and AVERROR_EOF, or a
sink write of the call returned an error; and a call in which a packet request
answered AVERROR_EAGAIN or AVERROR_EOF has returned normally. -/
theorem encode_fatal_iff_cause {ε φ τ : Type} (E : Encoder ε φ) (S : Sink τ) (c : AvErrors)
    (fuel : Nat) (frame : Option φ) (e : ε) (t : τ) :
    ((EncodeAudio.encode E S c fuel frame e t).outcome = Outcome.fatal ↔
      FatalCause c (E.sendFrame e frame).1 (EncodeAudio.encode E S c fuel frame e t).log) ∧
    (StopAnswered c (EncodeAudio.encode E S c fuel frame e t).log →
      (EncodeAudio.encode E S c fuel frame e t).outcome = Outcome.returned) ∧
    ((EncodeVideo.encode E S c fuel frame e t).outcome = Outcome.fatal ↔
      FatalCause c (E.sendFrame e frame).1 (EncodeVideo.encode E S c fuel frame e t).log) ∧
    (StopAnswered c (EncodeVideo.encode E S c fuel frame e t).log →
      (EncodeVideo.encode E S c fuel frame e t).outcome = Outcome.returned) := by
  rw [video_encode_eq]
  exact ⟨audio_encode_fatal_iff E S c fuel frame e t, audio_encode_stop_returns E S c fuel frame e t,
    audio_encode_fatal_iff E S c fuel frame e t, audio_encode_stop_returns E S c fuel frame e t⟩

theorem written_append (a b : List Event) : written (a ++ b) = written a ++ written b := by
  induction a with
  | nil => rfl
  | cons x rest ih =>
    cases x with
    | produce i => simpa [written] using ih
    | send eos ret => simpa [written] using ih
    | receive ret data => simpa [written] using ih
    | write data failed =>
      cases failed
      · simp [written, ih]
      · simpa [written] using ih

theorem written_script (pkts : List (Int × Bytes)) (stop : Int) (d : Bytes) :
    written ((pkts.flatMap fun a => [Event.receive a.1 a.2, Event.write a.2 false]) ++
      [Event.receive stop d]) = pkts.map Prod.snd := by
  induction pkts with
  | nil => rfl
  | cons a rest ih =>
    have h : ((a :: rest).flatMap fun a => [Event.receive a.1 a.2, Event.write a.2 false]) ++
        [Event.receive stop d] =
        Event.receive a.1 a.2 :: Event.write a.2 false ::
          ((rest.flatMap fun a => [Event.receive a.1 a.2, Event.write a.2 false]) ++
            [Event.receive stop d]) := by
      simp [List.flatMap_cons]
    rw [h]
    show a.2 :: written _ = a.2 :: List.map Prod.snd rest
    rw [ih]

theorem writeAll_append {τ : Type} (S : Sink τ) (a b : List Bytes) :
    ∀ t : τ, writeAll S t (a ++ b) = writeAll S (writeAll S t a) b := by
  induction a with
  | nil => intro t; rfl
  | cons p rest ih =>
    intro t
    show writeAll S (S.write t p).2 (rest ++ b) = writeAll S (writeAll S (S.write t p).2 rest) b
    exact ih _

theorem accepts_append {τ : Type} (S : Sink τ) (a b : List Bytes) :
    ∀ t : τ, accepts S t (a ++ b) ↔ accepts S t a ∧ accepts S (writeAll S t a) b := by
  induction a with
  | nil => intro t; simp [accepts, writeAll]
  | cons p rest ih =>
    intro t
    show ((S.write t p).1 = false ∧ accepts S (S.write t p).2 (rest ++ b)) ↔
      ((S.write t p).1 = false ∧ accepts S (S.write t p).2 rest) ∧
        accepts S (writeAll S (S.write t p).2 rest) b
    rw [ih]
    exact (and_assoc).symm

theorem writeAll_contents {τ : Type} (S : Sink τ) (contents : τ → Bytes)
    (hS : Appends S contents) (chunks : List Bytes) :
    ∀ t : τ, accepts S t chunks →
      contents (writeAll S t chunks) = contents t ++ chunks.flatten := by
  induction chunks with
  | nil => intro t _; simp [writeAll]
  | cons p rest ih =>
    intro t hacc
    obtain ⟨hw, hrest⟩ : (S.write t p).1 = false ∧ accepts S (S.write t p).2 rest := hacc
    show contents (writeAll S (S.write t p).2 rest) = _
    rw [ih _ hrest, hS t p hw]
    simp

theorem encodeLoop_scripted {ε φ τ : Type} (E : Encoder ε φ) (S : Sink τ) (c : AvErrors)
    (hE : c.AVERROR_EAGAIN < 0) (hF : c.AVERROR_EOF < 0) (stop : Int)
    (hstop : stop = c.AVERROR_EAGAIN ∨ stop = c.AVERROR_EOF) (pkts : List (Int × Bytes)) :
    ∀ (fuel : Nat) (ret : Int) (e : ε) (t : τ), 0 ≤ ret → pkts.length < fuel →
      (∀ a ∈ pkts, 0 ≤ a.1) → answers E e pkts stop → accepts S t (pkts.map Prod.snd) →
      (EncodeAudio.encodeLoop E S c fuel ret e t).outcome = Outcome.returned ∧
      (EncodeAudio.encodeLoop E S c fuel ret e t).sink = writeAll S t (pkts.map Prod.snd) ∧
      (EncodeAudio.encodeLoop E S c fuel ret e t).enc = drainState E e (pkts.length + 1) ∧
      ∃ d, (EncodeAudio.encodeLoop E S c fuel ret e t).log =
        (pkts.flatMap fun a => [Event.receive a.1 a.2, Event.write a.2 false]) ++
          [Event.receive stop d] := by
  induction pkts with
  | nil =>
    intro fuel ret e t hret hfuel _ hans _
    cases fuel with
    | zero => exact absurd hfuel (by simp)
    | succ n =>
      have hans1 : (E.receivePacket e).1.1 = stop := hans
      have hcond : (E.receivePacket e).1.1 = c.AVERROR_EAGAIN ∨
          (E.receivePacket e).1.1 = c.AVERROR_EOF := by rw [hans1]; exact hstop
      unfold EncodeAudio.encodeLoop
      simp only [ge_iff_le, hret, ↓reduceIte, hcond, true_and]
      exact ⟨rfl, rfl, (E.receivePacket e).1.2, by rw [hans1]; rfl⟩
  | cons a rest ih =>
    intro fuel ret e t hret hfuel hpk hans hacc
    cases fuel with
    | zero => exact absurd hfuel (by simp)
    | succ n =>
      obtain ⟨ha, hans2⟩ : (E.receivePacket e).1 = a ∧ answers E (E.receivePacket e).2 rest stop :=
        hans
      obtain ⟨hw, hacc2⟩ : (S.write t a.2).1 = false ∧
          accepts S (S.write t a.2).2 (rest.map Prod.snd) := hacc
      have ha0 : 0 ≤ a.1 := hpk a (List.mem_cons_self _ _)
      have hcond : ¬ (a.1 = c.AVERROR_EAGAIN ∨ a.1 = c.AVERROR_EOF) := by
        rintro (h | h) <;> omega
      have hneg : ¬ a.1 < 0 := by omega
      have hlen : rest.length < n := by
        simp only [List.length_cons] at hfuel
        omega
      have hrec := ih n a.1 (E.receivePacket e).2 (S.write t a.2).2 ha0 hlen
        (fun b hb => hpk b (List.mem_cons_of_mem _ hb)) hans2 hacc2
      unfold EncodeAudio.encodeLoop
      simp only [ge_iff_le, hret, ↓reduceIte, ha, hcond, hneg, hw, Bool.false_eq_true]
      refine ⟨hrec.1, ?_, ?_, ?_⟩
      · rw [hrec.2.1]
        rfl
      · rw [hrec.2.2.1]
        rfl
      · obtain ⟨d, hd⟩ := hrec.2.2.2
        exact ⟨d, by rw [hd]; simp⟩

theorem audio_encode_scripted {ε φ τ : Type} (E : Encoder ε φ) (S : Sink τ) (c : AvErrors)
    (frame : Option φ) (e : ε) (t : τ) (pkts : List (Int × Bytes)) (stop : Int) (fuel : Nat)
    (hE : c.AVERROR_EAGAIN < 0) (hF : c.AVERROR_EOF < 0)
    (hsend : 0 ≤ (E.sendFrame e frame).1)
    (hpk : ∀ a ∈ pkts, 0 ≤ a.1)
    (hans : answers E (E.sendFrame e frame).2 pkts stop)
    (hstop : stop = c.AVERROR_EAGAIN ∨ stop = c.AVERROR_EOF)
    (hacc : accepts S t (pkts.map Prod.snd))
    (hfuel : pkts.length < fuel) :
    WroteExactly S t (EncodeAudio.encode E S c fuel frame e t) (pkts.map Prod.snd) stop ∧
    DrainedScript E (E.sendFrame e frame).2 frame.isNone (E.sendFrame e frame).1
      (EncodeAudio.encode E S c fuel frame e t) pkts stop := by
  obtain ⟨hout, hsink, henc, d, hlog⟩ := encodeLoop_scripted E S c hE hF stop hstop pkts fuel
    (E.sendFrame e frame).1 (E.sendFrame e frame).2 t hsend hfuel hpk hans hacc
  have hns : ¬ (E.sendFrame e frame).1 < 0 := by omega
  have hw : written (EncodeAudio.encode E S c fuel frame e t).log = pkts.map Prod.snd := by
    simp only [EncodeAudio.encode, hns, ↓reduceIte, written]
    rw [hlog, written_script]
  have hs : (EncodeAudio.encode E S c fuel frame e t).sink =
      writeAll S t (pkts.map Prod.snd) := by
    simp only [EncodeAudio.encode, hns, ↓reduceIte]
    exact hsink
  refine ⟨⟨?_, hw, hs, ?_, ?_⟩, ?_, d, ?_⟩
  · simp only [EncodeAudio.encode, hns, ↓reduceIte]
    exact hout
  · intro contents hS
    rw [hs]
    exact writeAll_contents S contents hS _ t hacc
  · refine ⟨Event.send frame.isNone (E.sendFrame e frame).1 ::
      (pkts.flatMap fun a => [Event.receive a.1 a.2, Event.write a.2 false]), d, ?_⟩
    simp only [EncodeAudio.encode, hns, ↓reduceIte]
    rw [hlog]
    rfl
  · simp only [EncodeAudio.encode, hns, ↓reduceIte]
    exact henc
  · simp only [EncodeAudio.encode, hns, ↓reduceIte]
    rw [hlog]

theorem memorySink_appends : Appends memorySink id := by
  intro t d _
  rfl

/-- C2: when the submission succeeds, the encoder answers the successive
packet requests with packets p1..pk (status >= 0) and then with a stop status
(AVERROR_EAGAIN or AVERROR_EOF, both negative), and the sink takes every
chunk, then with fuel for k+1 turns of the loop encode (audio and video)
returns; the writes the sink took are exactly p1, .., pk in that order; the
sink is left in the state that taking p1, .., pk one after the other gives,
which for an append-only sink holds its old bytes followed by
p1 ++ .. ++ pk; and the last event of the call is the request answered with
the stop status, so nothing is written after it. The whole log of the call is
the submission, each packet's request and write in turn, and the stop
request; the encoder is left in its state after these k+1 requests. -/
theorem encode_writes_packets_in_order {ε φ τ : Type} (E : Encoder ε φ) (S : Sink τ)
    (c : AvErrors) (frame : Option φ) (e : ε) (t : τ) (pkts : List (Int × Bytes))
    (stop : Int) (fuel : Nat)
    (hE : c.AVERROR_EAGAIN < 0) (hF : c.AVERROR_EOF < 0)
    (hsend : 0 ≤ (E.sendFrame e frame).1)
    (hpk : ∀ a ∈ pkts, 0 ≤ a.1)
    (hans : answers E (E.sendFrame e frame).2 pkts stop)
    (hstop : stop = c.AVERROR_EAGAIN ∨ stop = c.AVERROR_EOF)
    (hacc : accepts S t (pkts.map Prod.snd))
    (hfuel : pkts.length < fuel) :
    (WroteExactly S t (EncodeAudio.encode E S c fuel frame e t) (pkts.map Prod.snd) stop ∧
      DrainedScript E (E.sendFrame e frame).2 frame.isNone (E.sendFrame e frame).1
        (EncodeAudio.encode E S c fuel frame e t) pkts stop) ∧
    (WroteExactly S t (EncodeVideo.encode E S c fuel frame e t) (pkts.map Prod.snd) stop ∧
      DrainedScript E (E.sendFrame e frame).2 frame.isNone (E.sendFrame e frame).1
        (EncodeVideo.encode E S c fuel frame e t) pkts stop) := by
  rw [video_encode_eq]
  exact ⟨audio_encode_scripted E S c frame e t pkts stop fuel hE hF hsend hpk hans hstop hacc hfuel,
    audio_encode_scripted E S c frame e t pkts stop fuel hE hF hsend hpk hans hstop hacc hfuel⟩

theorem encode_writes_packets_in_order_witness :
    (EncodeAudio.encode (scriptedEncoder Unit 0 (-11)) memorySink linuxErrors 3
      (some ()) [(0, [1, 2]), (5, [3])] [9]).sink = [9, 1, 2, 3] ∧
    (EncodeVideo.encode (scriptedEncoder Unit 0 (-11)) memorySink linuxErrors 3
      (some ()) [(0, [1, 2]), (5, [3])] [9]).sink = [9, 1, 2, 3] ∧
    (EncodeAudio.encode (scriptedEncoder Unit 0 (-11)) memorySink linuxErrors 3
      (some ()) [(0, [1, 2]), (5, [3])] [9]).log =
      [Event.send false 0, Event.receive 0 [1, 2], Event.write [1, 2] false,
        Event.receive 5 [3], Event.write [3] false, Event.receive (-11) []] ∧
    WroteExactly memorySink [9] (EncodeAudio.encode (scriptedEncoder Unit 0 (-11)) memorySink
      linuxErrors 3 (some ()) [(0, [1, 2]), (5, [3])] [9]) [[1, 2], [3]] (-11) ∧
    WroteExactly memorySink [9] (EncodeVideo.encode (scriptedEncoder Unit 0 (-11)) memorySink
      linuxErrors 3 (some ()) [(0, [1, 2]), (5, [3])] [9]) [[1, 2], [3]] (-11) :=
  ⟨by decide, by decide, by decide,
    (encode_writes_packets_in_order (scriptedEncoder Unit 0 (-11)) memorySink linuxErrors
      (some ()) [(0, [1, 2]), (5, [3])] [9] [(0, [1, 2]), (5, [3])] (-11) 3
      (by decide) (by decide) (by decide) (by decide) ⟨rfl, rfl, rfl⟩ (Or.inl rfl)
      ⟨rfl, rfl, trivial⟩ (by decide)).1.1,
    (encode_writes_packets_in_order (scriptedEncoder Unit 0 (-11)) memorySink linuxErrors
      (some ()) [(0, [1, 2]), (5, [3])] [9] [(0, [1, 2]), (5, [3])] (-11) 3
      (by decide) (by decide) (by decide) (by decide) ⟨rfl, rfl, rfl⟩ (Or.inl rfl)
      ⟨rfl, rfl, trivial⟩ (by decide)).2.1⟩

/-! ## Logs: proofs -/

theorem packets_append (c : AvErrors) (a b : List Event) :
    packets c (a ++ b) = packets c a ++ packets c b := by
  induction a with
  | nil => rfl
  | cons x rest ih =>
    cases x with
    | produce i => simpa [packets] using ih
    | send eos ret => simpa [packets] using ih
    | write data failed => simpa [packets] using ih
    | receive ret data =>
      simp only [List.cons_append, packets]
      split
      · exact ih
      · exact congrArg (List.cons data) ih

theorem eosCount_append (a b : List Event) : eosCount (a ++ b) = eosCount a + eosCount b := by
  induction a with
  | nil => simp [eosCount]
  | cons x rest ih =>
    cases x with
    | produce i => simpa [eosCount] using ih
    | receive ret data => simpa [eosCount] using ih
    | write data failed => simpa [eosCount] using ih
    | send eos ret =>
      cases eos
      · simpa [eosCount] using ih
      · show eosCount (rest ++ b) + 1 = eosCount rest + 1 + eosCount b
        rw [ih]
        omega

theorem produced_append (a b : List Event) : produced (a ++ b) = produced a + produced b := by
  induction a with
  | nil => simp [produced]
  | cons x rest ih =>
    cases x with
    | send eos ret => simpa [produced] using ih
    | receive ret data => simpa [produced] using ih
    | write data failed => simpa [produced] using ih
    | produce i =>
      show produced (rest ++ b) + 1 = produced rest + 1 + produced b
      rw [ih]
      omega

theorem encodeLoop_log_facts {ε φ τ : Type} (E : Encoder ε φ) (S : Sink τ) (c : AvErrors)
    (fuel : Nat) : ∀ (ret : Int) (e : ε) (t : τ),
      eosCount (EncodeAudio.encodeLoop E S c fuel ret e t).log = 0 ∧
      produced (EncodeAudio.encodeLoop E S c fuel ret e t).log = 0 ∧
      ((EncodeAudio.encodeLoop E S c fuel ret e t).outcome ≠ Outcome.fatal →
        written (EncodeAudio.encodeLoop E S c fuel ret e t).log =
          packets c (EncodeAudio.encodeLoop E S c fuel ret e t).log) := by
  induction fuel with
  | zero =>
    intro ret e t
    unfold EncodeAudio.encodeLoop
    split <;> simp [eosCount, produced, written, packets]
  | succ n ih =>
    intro ret e t
    unfold EncodeAudio.encodeLoop
    by_cases hret : ret ≥ 0
    · simp only [hret, ↓reduceIte]
      by_cases hstop : (E.receivePacket e).1.1 = c.AVERROR_EAGAIN ∨
          (E.receivePacket e).1.1 = c.AVERROR_EOF
      · have hp : (E.receivePacket e).1.1 = c.AVERROR_EAGAIN ∨
            (E.receivePacket e).1.1 = c.AVERROR_EOF ∨ (E.receivePacket e).1.1 < 0 := by
          rcases hstop with h | h
          · exact Or.inl h
          · exact Or.inr (Or.inl h)
        simp only [hstop, ↓reduceIte, eosCount, produced, written, packets, hp, ne_eq,
          reduceCtorEq, not_false_eq_true, implies_true, and_self]
      · simp only [hstop, ↓reduceIte]
        by_cases hneg : (E.receivePacket e).1.1 < 0
        · simp [hneg, eosCount, produced]
        · simp only [hneg, ↓reduceIte]
          by_cases hw : (S.write t (E.receivePacket e).1.2).1 = true
          · simp [hw, eosCount, produced]
          · have hp : ¬ ((E.receivePacket e).1.1 = c.AVERROR_EAGAIN ∨
                (E.receivePacket e).1.1 = c.AVERROR_EOF ∨ (E.receivePacket e).1.1 < 0) := by
              rintro (h | h | h)
              · exact hstop (Or.inl h)
              · exact hstop (Or.inr h)
              · exact hneg h
            obtain ⟨h1, h2, h3⟩ := ih (E.receivePacket e).1.1 (E.receivePacket e).2
              (S.write t (E.receivePacket e).1.2).2
            simp only [hw, Bool.false_eq_true, ↓reduceIte, eosCount, produced, written,
              packets, hp, h1, h2, true_and]
            intro hne
            rw [h3 hne]
    · simp [hret, eosCount, produced, written, packets]

theorem encode_log_facts {ε φ τ : Type} (E : Encoder ε φ) (S : Sink τ) (c : AvErrors)
    (fuel : Nat) (frame : Option φ) (e : ε) (t : τ) :
    eosCount (EncodeAudio.encode E S c fuel frame e t).log = (if frame.isNone then 1 else 0) ∧
    produced (EncodeAudio.encode E S c fuel frame e t).log = 0 ∧
    ((EncodeAudio.encode E S c fuel frame e t).outcome ≠ Outcome.fatal →
      written (EncodeAudio.encode E S c fuel frame e t).log =
        packets c (EncodeAudio.encode E S c fuel frame e t).log) := by
  obtain ⟨h1, h2, h3⟩ := encodeLoop_log_facts E S c fuel (E.sendFrame e frame).1
    (E.sendFrame e frame).2 t
  unfold EncodeAudio.encode
  by_cases hs : (E.sendFrame e frame).1 < 0
  · cases frame <;> simp [hs, eosCount, produced]
  · cases frame <;> simp [hs, eosCount, produced, written, packets, h1, h2] <;> exact h3

/-! ## The drivers: proofs -/

theorem video_frameLoop_facts {ε τ : Type} (env : EncodeVideo.Env ε τ) (fuel : Nat) (n : Nat) :
    ∀ (i : Nat) (p : EncodeVideo.Planes) (e : ε) (t : τ),
      eosCount (EncodeVideo.frameLoop env fuel n i p e t).log = 0 ∧
      ((EncodeVideo.frameLoop env fuel n i p e t).outcome = Outcome.returned →
        produced (EncodeVideo.frameLoop env fuel n i p e t).log = n ∧
        written (EncodeVideo.frameLoop env fuel n i p e t).log =
          packets env.errs (EncodeVideo.frameLoop env fuel n i p e t).log) := by
  induction n with
  | zero =>
    intro i p e t
    simp [EncodeVideo.frameLoop, eosCount, produced, written, packets]
  | succ n ih =>
    intro i p e t
    unfold EncodeVideo.frameLoop
    by_cases hw : env.makeWritable i < 0
    · simp [hw, eosCount]
    · simp only [hw, ↓reduceIte, video_encode_eq]
      obtain ⟨h1, h2, h3⟩ := encode_log_facts env.enc env.sink env.errs fuel
        (some (⟨EncodeVideo.fillFrame 325 288 env.linesize0 env.linesize1 env.linesize2 i p, i⟩ :
          EncodeVideo.VideoFrame)) e t
      generalize EncodeAudio.encode env.enc env.sink env.errs fuel
        (some (⟨EncodeVideo.fillFrame 325 288 env.linesize0 env.linesize1 env.linesize2 i p, i⟩ :
          EncodeVideo.VideoFrame)) e t = r at h1 h2 h3 ⊢
      obtain ⟨g1, g2⟩ := ih (i + 1)
        (EncodeVideo.fillFrame 325 288 env.linesize0 env.linesize1 env.linesize2 i p) r.enc r.sink
      simp only [Option.isNone_some, Bool.false_eq_true, ↓reduceIte] at h1
      cases hr : r.outcome with
      | returned =>
        simp only [eosCount, eosCount_append, h1, g1, produced, produced_append, h2, written,
          written_append, packets, packets_append, true_and]
        intro hout
        obtain ⟨g3, g4⟩ := g2 hout
        rw [g3, g4, h3 (by rw [hr]; decide)]
        exact ⟨by omega, rfl⟩
      | fatal => simp [eosCount, h1]
      | unfinished => simp [eosCount, h1]

theorem audio_frameLoop_facts {ε τ θ : Type} (env : EncodeAudio.Env ε τ θ)
    (cfg : EncodeAudio.Config) (fuel : Nat) (n : Nat) :
    ∀ (i : Nat) (st : EncodeAudio.Fill θ) (e : ε) (t : τ),
      eosCount (EncodeAudio.frameLoop env cfg fuel n i st e t).log = 0 := by
  induction n with
  | zero =>
    intro i st e t
    simp [EncodeAudio.frameLoop, eosCount]
  | succ n ih =>
    intro i st e t
    unfold EncodeAudio.frameLoop
    by_cases hw : env.makeWritable i < 0
    · simp [hw, eosCount]
    · simp only [hw, ↓reduceIte]
      obtain ⟨h1, -, -⟩ := encode_log_facts env.enc env.sink env.errs fuel
        (some (⟨(EncodeAudio.fillFrame env.tone cfg.sampleRate env.frameSize cfg.channels st).buf⟩ :
          EncodeAudio.AudioFrame)) e t
      generalize EncodeAudio.encode env.enc env.sink env.errs fuel
        (some (⟨(EncodeAudio.fillFrame env.tone cfg.sampleRate env.frameSize cfg.channels st).buf⟩ :
          EncodeAudio.AudioFrame)) e t = r at h1 ⊢
      have g1 := ih (i + 1)
        (EncodeAudio.fillFrame env.tone cfg.sampleRate env.frameSize cfg.channels st) r.enc r.sink
      simp only [Option.isNone_some, Bool.false_eq_true, ↓reduceIte] at h1
      cases hr : r.outcome with
      | returned => simp only [eosCount, eosCount_append, h1, g1]
      | fatal => simp [eosCount, h1]
      | unfinished => simp [eosCount, h1]

theorem encodeLoop_sink_facts {ε φ τ : Type} (E : Encoder ε φ) (S : Sink τ) (c : AvErrors)
    (fuel : Nat) : ∀ (ret : Int) (e : ε) (t : τ),
      (EncodeAudio.encodeLoop E S c fuel ret e t).outcome ≠ Outcome.fatal →
      (EncodeAudio.encodeLoop E S c fuel ret e t).sink =
        writeAll S t (written (EncodeAudio.encodeLoop E S c fuel ret e t).log) ∧
      accepts S t (written (EncodeAudio.encodeLoop E S c fuel ret e t).log) := by
  induction fuel with
  | zero =>
    intro ret e t _
    unfold EncodeAudio.encodeLoop
    split <;> simp [written, writeAll, accepts]
  | succ n ih =>
    intro ret e t
    unfold EncodeAudio.encodeLoop
    by_cases hret : ret ≥ 0
    · simp only [hret, ↓reduceIte]
      by_cases hstop : (E.receivePacket e).1.1 = c.AVERROR_EAGAIN ∨
          (E.receivePacket e).1.1 = c.AVERROR_EOF
      · simp [hstop, written, writeAll, accepts]
      · simp only [hstop, ↓reduceIte]
        by_cases hneg : (E.receivePacket e).1.1 < 0
        · simp [hneg]
        · simp only [hneg, ↓reduceIte]
          by_cases hw : (S.write t (E.receivePacket e).1.2).1 = true
          · simp [hw]
          · simp only [hw, Bool.false_eq_true, ↓reduceIte, written]
            intro hne
            obtain ⟨h1, h2⟩ := ih (E.receivePacket e).1.1 (E.receivePacket e).2
              (S.write t (E.receivePacket e).1.2).2 hne
            refine ⟨?_, ?_⟩
            · rw [h1]
              rfl
            · exact ⟨by simpa using hw, h2⟩
    · simp [hret, written, writeAll, accepts]

theorem encode_sink_facts {ε φ τ : Type} (E : Encoder ε φ) (S : Sink τ) (c : AvErrors)
    (fuel : Nat) (frame : Option φ) (e : ε) (t : τ)
    (h : (EncodeAudio.encode E S c fuel frame e t).outcome ≠ Outcome.fatal) :
    (EncodeAudio.encode E S c fuel frame e t).sink =
      writeAll S t (written (EncodeAudio.encode E S c fuel frame e t).log) ∧
    accepts S t (written (EncodeAudio.encode E S c fuel frame e t).log) := by
  unfold EncodeAudio.encode at h ⊢
  by_cases hs : (E.sendFrame e frame).1 < 0
  · simp [hs] at h
  · simp only [hs, ↓reduceIte, written] at h ⊢
    exact encodeLoop_sink_facts E S c fuel _ _ t h

theorem video_frameLoop_sink_facts {ε τ : Type} (env : EncodeVideo.Env ε τ) (fuel : Nat)
    (n : Nat) : ∀ (i : Nat) (p : EncodeVideo.Planes) (e : ε) (t : τ),
      (EncodeVideo.frameLoop env fuel n i p e t).outcome = Outcome.returned →
      (EncodeVideo.frameLoop env fuel n i p e t).sink =
        writeAll env.sink t (written (EncodeVideo.frameLoop env fuel n i p e t).log) ∧
      accepts env.sink t (written (EncodeVideo.frameLoop env fuel n i p e t).log) := by
  induction n with
  | zero =>
    intro i p e t _
    simp [EncodeVideo.frameLoop, written, writeAll, accepts]
  | succ n ih =>
    intro i p e t
    unfold EncodeVideo.frameLoop
    by_cases hw : env.makeWritable i < 0
    · simp [hw]
    · simp only [hw, ↓reduceIte, video_encode_eq]
      have hf := encode_sink_facts env.enc env.sink env.errs fuel
        (some (⟨EncodeVideo.fillFrame 325 288 env.linesize0 env.linesize1 env.linesize2 i p, i⟩ :
          EncodeVideo.VideoFrame)) e t
      generalize EncodeAudio.encode env.enc env.sink env.errs fuel
        (some (⟨EncodeVideo.fillFrame 325 288 env.linesize0 env.linesize1 env.linesize2 i p, i⟩ :
          EncodeVideo.VideoFrame)) e t = r at hf ⊢
      have g := ih (i + 1)
        (EncodeVideo.fillFrame 325 288 env.linesize0 env.linesize1 env.linesize2 i p) r.enc r.sink
      cases hr : r.outcome with
      | returned =>
        simp only [written, written_append]
        intro hout
        obtain ⟨f1, f2⟩ := hf (by rw [hr]; decide)
        obtain ⟨g1, g2⟩ := g hout
        refine ⟨?_, ?_⟩
        · rw [writeAll_append, ← f1]
          exact g1
        · rw [accepts_append, ← f1]
          exact ⟨f2, g2⟩
      | fatal => simp
      | unfinished => simp

theorem video_main_eq_encodeAll {ε τ : Type} (env : EncodeVideo.Env ε τ) (fuel : Nat)
    (h : (EncodeVideo.main env fuel).outcome ≠ Outcome.fatal) :
    EncodeVideo.main env fuel = EncodeVideo.encodeAll env fuel := by
  unfold EncodeVideo.main at h ⊢
  split_ifs at h ⊢
  all_goals first | rfl | exact absurd rfl h

/-- On a sink that only appends, a run of the video driver that completes
without a fatal error has produced 25 frames, then made the flush call
encode(nil), which returned, then as last event the accepted write of the end
code; the writes the sink took are the packets the encoder handed out, in
order, followed by the end code, and the sink holds the bytes it held at the
start followed by the packets' bytes and 00 00 01 B7. -/
theorem video_main_appends_packets_then_endcode {ε τ : Type} (env : EncodeVideo.Env ε τ)
    (fuel : Nat) (h : (EncodeVideo.main env fuel).outcome = Outcome.returned) :
    (∃ pre e t,
      produced pre = 25 ∧ eosCount pre = 0 ∧
      (EncodeVideo.encode env.enc env.sink env.errs fuel none e t).outcome = Outcome.returned ∧
      (EncodeVideo.main env fuel).log =
        pre ++ (EncodeVideo.encode env.enc env.sink env.errs fuel none e t).log ++
          [Event.write EncodeVideo.endcode false]) ∧
    written (EncodeVideo.main env fuel).log =
      packets env.errs (EncodeVideo.main env fuel).log ++ [EncodeVideo.endcode] ∧
    (EncodeVideo.main env fuel).sink =
      writeAll env.sink env.sink0
        (packets env.errs (EncodeVideo.main env fuel).log ++ [EncodeVideo.endcode]) ∧
    (∀ contents : τ → Bytes, Appends env.sink contents →
      contents (EncodeVideo.main env fuel).sink =
        contents env.sink0 ++ (packets env.errs (EncodeVideo.main env fuel).log).flatten ++
          [0, 0, 1, 0xb7]) := by
  have hmain := video_main_eq_encodeAll env fuel (by rw [h]; decide)
  rw [hmain] at h ⊢
  obtain ⟨g1, g2⟩ := video_frameLoop_facts env fuel 25 0 env.planes0 env.enc0 env.sink0
  have gs := video_frameLoop_sink_facts env fuel 25 0 env.planes0 env.enc0 env.sink0
  unfold EncodeVideo.encodeAll at h ⊢
  generalize EncodeVideo.frameLoop env fuel 25 0 env.planes0 env.enc0 env.sink0 = r
    at h g1 g2 gs ⊢
  cases hr : r.outcome with
  | fatal => simp [hr] at h
  | unfinished => simp [hr] at h
  | returned =>
    obtain ⟨g3, g4⟩ := g2 hr
    obtain ⟨gs1, gs2⟩ := gs hr
    obtain ⟨-, -, f3⟩ := encode_log_facts env.enc env.sink env.errs fuel
      (none : Option EncodeVideo.VideoFrame) r.enc r.sink
    have fs := encode_sink_facts env.enc env.sink env.errs fuel
      (none : Option EncodeVideo.VideoFrame) r.enc r.sink
    rw [← video_encode_eq] at f3 fs
    simp only [hr] at h ⊢
    cases hf : (EncodeVideo.encode env.enc env.sink env.errs fuel none r.enc r.sink).outcome with
    | fatal => simp [hf] at h
    | unfinished => simp [hf] at h
    | returned =>
      obtain ⟨fs1, fs2⟩ := fs (by rw [hf]; decide)
      simp only [hf] at h ⊢
      by_cases hw : (env.sink.write
          (EncodeVideo.encode env.enc env.sink env.errs fuel none r.enc r.sink).sink
          EncodeVideo.endcode).1 = true
      · simp [hw] at h
      · simp only [hw, Bool.false_eq_true, ↓reduceIte]
        have hwf : (env.sink.write
            (EncodeVideo.encode env.enc env.sink env.errs fuel none r.enc r.sink).sink
            EncodeVideo.endcode).1 = false := by simpa using hw
        have hwr : written (r.log ++
            (EncodeVideo.encode env.enc env.sink env.errs fuel none r.enc r.sink).log ++
              [Event.write EncodeVideo.endcode false]) =
            packets env.errs (r.log ++
              (EncodeVideo.encode env.enc env.sink env.errs fuel none r.enc r.sink).log ++
                [Event.write EncodeVideo.endcode false]) ++ [EncodeVideo.endcode] := by
          simp only [written_append, packets_append, g4, f3 (by rw [hf]; decide), written,
            packets, List.append_nil]
        have hsink : (env.sink.write
            (EncodeVideo.encode env.enc env.sink env.errs fuel none r.enc r.sink).sink
            EncodeVideo.endcode).2 =
            writeAll env.sink env.sink0 (written (r.log ++
              (EncodeVideo.encode env.enc env.sink env.errs fuel none r.enc r.sink).log ++
                [Event.write EncodeVideo.endcode false])) := by
          simp only [written_append, writeAll_append, written]
          rw [← gs1, ← fs1]
          rfl
        have hacc : accepts env.sink env.sink0 (written (r.log ++
              (EncodeVideo.encode env.enc env.sink env.errs fuel none r.enc r.sink).log ++
                [Event.write EncodeVideo.endcode false])) := by
          simp only [written_append, accepts_append, writeAll_append, written]
          rw [← gs1, ← fs1]
          exact ⟨⟨gs2, fs2⟩, hwf, trivial⟩
        refine ⟨⟨r.log, r.enc, r.sink, g3, g1, hf, rfl⟩, hwr, ?_, ?_⟩
        · rw [hsink, hwr]
        · intro contents hS
          rw [hsink, writeAll_contents env.sink contents hS _ _ hacc, hwr]
          simp [EncodeVideo.endcode]

/-- On sinks that start empty the same run leaves exactly the packets' bytes
followed by the end code: the appending sink, and a new file. -/
theorem video_main_on_empty_sink :
    (EncodeVideo.main sampleVideoEnv 3).outcome = Outcome.returned ∧
    (EncodeVideo.main sampleVideoEnv 3).sink = [7, 8, 9, 0, 0, 1, 0xb7] ∧
    (EncodeVideo.main { staleFileVideoEnv with sink0 := ⟨[], 0⟩ } 3).sink.data =
      [7, 8, 9, 0, 0, 1, 0xb7] := by
  decide

/-- C8 (what the code does): the output file is opened without truncation, so
when it exists and is longer than the stream, its old tail stays. On an
existing file of ten bytes 0xFF, with an encoder that hands out the packets
07 and 08 09, the run completes without a fatal error and leaves the file as
07 08 09 00 00 01 B7 FF FF FF: its last four bytes are not 00 00 01 B7, and
its contents are not the packet bytes followed by exactly the end code. -/
theorem video_main_keeps_stale_tail :
    (EncodeVideo.main staleFileVideoEnv 3).outcome = Outcome.returned ∧
    packets staleFileVideoEnv.errs (EncodeVideo.main staleFileVideoEnv 3).log = [[7], [8, 9]] ∧
    (EncodeVideo.main staleFileVideoEnv 3).sink.data =
      [7, 8, 9, 0, 0, 1, 0xb7, 255, 255, 255] ∧
    (EncodeVideo.main staleFileVideoEnv 3).sink.data.drop
      ((EncodeVideo.main staleFileVideoEnv 3).sink.data.length - 4) ≠ EncodeVideo.endcode ∧
    (EncodeVideo.main staleFileVideoEnv 3).sink.data ≠ [7, 8, 9] ++ EncodeVideo.endcode := by
  decide

theorem checkSampleFmt_eq_true_iff (l : List Int) (f : Int) :
    checkSampleFmt l f = true ↔ f ∈ l := by
  induction l with
  | nil => simp [checkSampleFmt]
  | cons v rest ih =>
    unfold checkSampleFmt
    by_cases hv : v = f
    · simp [hv]
    · have hne : ¬ f = v := fun h => hv h.symm
      simp [hv, hne, ih]

theorem audio_encodeAll_config {ε τ θ : Type} (env : EncodeAudio.Env ε τ θ)
    (cfg : EncodeAudio.Config) (fuel : Nat) :
    (EncodeAudio.encodeAll env cfg fuel).config = some cfg := by
  unfold EncodeAudio.encodeAll
  split_ifs
  · rfl
  · rfl
  · rfl
  · rfl
  · simp only []
    split <;> rfl

theorem audio_encodeAll_eosCount {ε τ θ : Type} (env : EncodeAudio.Env ε τ θ)
    (cfg : EncodeAudio.Config) (fuel : Nat) :
    eosCount (EncodeAudio.encodeAll env cfg fuel).log ≤ 1 := by
  have g1 := audio_frameLoop_facts env cfg fuel 200 0 ⟨env.buffer0, env.tone.zero, []⟩
    env.enc0 env.sink0
  unfold EncodeAudio.encodeAll
  split_ifs
  · simp [eosCount]
  · simp [eosCount]
  · simp [eosCount]
  · simp [eosCount]
  · generalize EncodeAudio.frameLoop env cfg fuel 200 0 ⟨env.buffer0, env.tone.zero, []⟩
      env.enc0 env.sink0 = r at g1 ⊢
    obtain ⟨f1, -, -⟩ := encode_log_facts env.enc env.sink env.errs fuel
      (none : Option EncodeAudio.AudioFrame) r.enc r.sink
    cases hr : r.outcome with
    | returned => simp [hr, eosCount_append, g1, f1]
    | fatal => simp [hr, g1]
    | unfinished => simp [hr, g1]

theorem audio_main_eosCount {ε τ θ : Type} (env : EncodeAudio.Env ε τ θ) (fuel : Nat) :
    eosCount (EncodeAudio.main env fuel).log ≤ 1 := by
  unfold EncodeAudio.main
  by_cases ha : env.args.length ≤ 1
  · simp [ha, eosCount]
  · simp only [ha, ↓reduceIte]
    cases hfe : env.findEncoder with
    | none => simp [eosCount]
    | some codec =>
      simp only []
      split_ifs
      · simp [eosCount]
      · simp [eosCount]
      · simp [eosCount]
      · exact audio_encodeAll_eosCount env _ fuel

theorem video_main_eosCount {ε τ : Type} (env : EncodeVideo.Env ε τ) (fuel : Nat) :
    eosCount (EncodeVideo.main env fuel).log ≤ 1 := by
  have hall : eosCount (EncodeVideo.encodeAll env fuel).log ≤ 1 := by
    obtain ⟨g1, -⟩ := video_frameLoop_facts env fuel 25 0 env.planes0 env.enc0 env.sink0
    unfold EncodeVideo.encodeAll
    generalize EncodeVideo.frameLoop env fuel 25 0 env.planes0 env.enc0 env.sink0 = r at g1 ⊢
    obtain ⟨f1, -, -⟩ := encode_log_facts env.enc env.sink env.errs fuel
      (none : Option EncodeVideo.VideoFrame) r.enc r.sink
    rw [← video_encode_eq] at f1
    cases hr : r.outcome with
    | fatal => simp [hr, g1]
    | unfinished => simp [hr, g1]
    | returned =>
      simp only [hr]
      cases hf : (EncodeVideo.encode env.enc env.sink env.errs fuel none r.enc r.sink).outcome with
      | fatal => simp [hf, eosCount_append, g1, f1]
      | unfinished => simp [hf, eosCount_append, g1, f1]
      | returned =>
        simp only [hf]
        split_ifs <;> simp [eosCount_append, g1, f1, eosCount]
  unfold EncodeVideo.main
  split_ifs
  all_goals first | exact hall | simp [eosCount]

theorem audio_encode_nil_rejected_iff {ε φ τ : Type} (E : Encoder ε φ) (S : Sink τ)
    (c : AvErrors) (fuel : Nat) (e : ε) (t : τ) :
    (E.sendFrame e none).1 < 0 ↔
      ((EncodeAudio.encode E S c fuel none e t).outcome = Outcome.fatal ∧
        (EncodeAudio.encode E S c fuel none e t).log = [Event.send true (E.sendFrame e none).1]) := by
  unfold EncodeAudio.encode
  by_cases hs : (E.sendFrame e none).1 < 0
  · simp [hs]
  · simp only [hs, ↓reduceIte, Option.isNone_none, List.cons.injEq, true_and, false_iff, not_and]
    intro hfatal hnil
    rw [encodeLoop_fatal_iff, hnil] at hfatal
    simp at hfatal

/-- C6 (amended): encode keeps no record of an earlier end-of-stream call. In
every encoder and sink state, so also after an earlier nil-frame call, a call
with a nil frame is rejected at the submission (fatal end, nothing requested
or written) exactly when SendFrame answers a negative status for it. In the
two drivers a run submits a nil frame at most once. -/
theorem nil_frame_rejected_iff_send_negative {ε φ τ ε₁ τ₁ θ₁ ε₂ τ₂ : Type}
    (E : Encoder ε φ) (S : Sink τ) (c : AvErrors) (fuel : Nat) (e : ε) (t : τ)
    (aenv : EncodeAudio.Env ε₁ τ₁ θ₁) (venv : EncodeVideo.Env ε₂ τ₂) (afuel vfuel : Nat) :
    ((E.sendFrame e none).1 < 0 ↔
      ((EncodeAudio.encode E S c fuel none e t).outcome = Outcome.fatal ∧
        (EncodeAudio.encode E S c fuel none e t).log =
          [Event.send true (E.sendFrame e none).1])) ∧
    ((E.sendFrame e none).1 < 0 ↔
      ((EncodeVideo.encode E S c fuel none e t).outcome = Outcome.fatal ∧
        (EncodeVideo.encode E S c fuel none e t).log =
          [Event.send true (E.sendFrame e none).1])) ∧
    eosCount (EncodeAudio.main aenv afuel).log ≤ 1 ∧
    eosCount (EncodeVideo.main venv vfuel).log ≤ 1 := by
  rw [video_encode_eq]
  exact ⟨audio_encode_nil_rejected_iff E S c fuel e t, audio_encode_nil_rejected_iff E S c fuel e t,
    audio_main_eosCount aenv afuel, video_main_eosCount venv vfuel⟩

/-- C6 as stated fails: with an encoder that answers 0 to every submission and
AVERROR_EAGAIN to every packet request, a first nil-frame call returns, and a
second nil-frame call on the resulting state is not rejected: it submits the
nil frame again, requests a packet and returns normally (audio and video). -/
theorem second_nil_frame_call_not_rejected :
    (EncodeAudio.encode (scriptedEncoder Unit 0 (-11)) memorySink linuxErrors 1 none
      [] []).outcome = Outcome.returned ∧
    (EncodeAudio.encode (scriptedEncoder Unit 0 (-11)) memorySink linuxErrors 1 none
      (EncodeAudio.encode (scriptedEncoder Unit 0 (-11)) memorySink linuxErrors 1 none [] []).enc
      (EncodeAudio.encode (scriptedEncoder Unit 0 (-11)) memorySink linuxErrors 1 none
        [] []).sink).outcome = Outcome.returned ∧
    (EncodeAudio.encode (scriptedEncoder Unit 0 (-11)) memorySink linuxErrors 1 none
      (EncodeAudio.encode (scriptedEncoder Unit 0 (-11)) memorySink linuxErrors 1 none [] []).enc
      (EncodeAudio.encode (scriptedEncoder Unit 0 (-11)) memorySink linuxErrors 1 none
        [] []).sink).log = [Event.send true 0, Event.receive (-11) []] ∧
    (EncodeVideo.encode (scriptedEncoder Unit 0 (-11)) memorySink linuxErrors 1 none
      (EncodeVideo.encode (scriptedEncoder Unit 0 (-11)) memorySink linuxErrors 1 none [] []).enc
      (EncodeVideo.encode (scriptedEncoder Unit 0 (-11)) memorySink linuxErrors 1 none
        [] []).sink).outcome = Outcome.returned := by
  decide

/-- C5: checkSampleFmt answers whether the required format is in the advertised
list. When it is not, the audio driver ends fatally with an empty log: no
frame produced, no frame submitted, no packet requested, nothing written.
When it is, and the driver got as far as the check, negotiation goes on: the
context is configured with the required format, the selected sample rate, the
selected channel layout and that layout's channel count. -/
theorem checkSampleFmt_gates_audio_main {ε τ θ : Type} (env : EncodeAudio.Env ε τ θ)
    (fuel : Nat) (codec : EncodeAudio.Codec) (hc : env.findEncoder = some codec) :
    (env.AV_SAMPLE_FMT_S16 ∉ codec.sampleFmts →
      checkSampleFmt codec.sampleFmts env.AV_SAMPLE_FMT_S16 = false ∧
      (EncodeAudio.main env fuel).outcome = Outcome.fatal ∧
      (EncodeAudio.main env fuel).log = []) ∧
    (env.AV_SAMPLE_FMT_S16 ∈ codec.sampleFmts →
      checkSampleFmt codec.sampleFmts env.AV_SAMPLE_FMT_S16 = true ∧
      (1 < env.args.length → env.allocContext3 = true →
        (EncodeAudio.main env fuel).config = some
          ⟨env.AV_SAMPLE_FMT_S16, selectSampleRate codec.supportedSamplerates,
            selectChanelLayout env.nbChannelsOf env.AV_CH_LAYOUT_STEREO codec.channelLayouts,
            env.nbChannelsOf (selectChanelLayout env.nbChannelsOf env.AV_CH_LAYOUT_STEREO
              codec.channelLayouts)⟩)) := by
  constructor
  · intro hn
    have hf : checkSampleFmt codec.sampleFmts env.AV_SAMPLE_FMT_S16 = false := by
      cases hcs : checkSampleFmt codec.sampleFmts env.AV_SAMPLE_FMT_S16 with
      | false => rfl
      | true => exact absurd ((checkSampleFmt_eq_true_iff _ _).mp hcs) hn
    refine ⟨hf, ?_⟩
    unfold EncodeAudio.main
    rw [hc]
    simp only [hf]
    split_ifs <;> exact ⟨rfl, rfl⟩
  · intro hm
    have ht : checkSampleFmt codec.sampleFmts env.AV_SAMPLE_FMT_S16 = true :=
      (checkSampleFmt_eq_true_iff _ _).mpr hm
    refine ⟨ht, ?_⟩
    intro hargs hctx
    have hna : ¬ env.args.length ≤ 1 := by omega
    unfold EncodeAudio.main
    rw [hc]
    simp only [hna, ↓reduceIte, hctx, ht, Bool.true_eq_false]
    split_ifs
    · rfl
    · exact audio_encodeAll_config env _ fuel

theorem checkSampleFmt_gates_audio_main_witness :
    (sampleAudioEnv ⟨[8, 6], [44100, 48000], [4, 3]⟩).findEncoder =
      some ⟨[8, 6], [44100, 48000], [4, 3]⟩ ∧
    (EncodeAudio.main (sampleAudioEnv ⟨[8, 6], [44100, 48000], [4, 3]⟩) 3).outcome =
      Outcome.fatal ∧
    (EncodeAudio.main (sampleAudioEnv ⟨[8, 6], [44100, 48000], [4, 3]⟩) 3).log = [] ∧
    (EncodeAudio.main (sampleAudioEnv ⟨[8, 1], [48000, 44100], [4, 3]⟩) 3).config =
      some ⟨1, selectSampleRate [48000, 44100], selectChanelLayout popcount 3 [4, 3],
        popcount (selectChanelLayout popcount 3 [4, 3])⟩ ∧
    selectSampleRate [48000, 44100] = 44100 ∧
    selectChanelLayout popcount 3 [4, 3] = 3 ∧
    popcount 3 = 2 :=
  ⟨rfl,
    ((checkSampleFmt_gates_audio_main (sampleAudioEnv ⟨[8, 6], [44100, 48000], [4, 3]⟩) 3
      ⟨[8, 6], [44100, 48000], [4, 3]⟩ rfl).1 (by decide)).2.1,
    ((checkSampleFmt_gates_audio_main (sampleAudioEnv ⟨[8, 6], [44100, 48000], [4, 3]⟩) 3
      ⟨[8, 6], [44100, 48000], [4, 3]⟩ rfl).1 (by decide)).2.2,
    ((checkSampleFmt_gates_audio_main (sampleAudioEnv ⟨[8, 1], [48000, 44100], [4, 3]⟩) 3
      ⟨[8, 1], [48000, 44100], [4, 3]⟩ rfl).2 (by decide)).2 (by decide) rfl,
    by decide, by decide, by decide⟩

/-! ## The generators: proofs -/

theorem putAll_apply (slots : List Nat) (v : Nat) :
    ∀ (buf : Nat → Nat) (s : Nat), putAll buf slots v s = if s ∈ slots then v else buf s := by
  induction slots with
  | nil => intro buf s; simp [putAll]
  | cons x rest ih =>
    intro buf s
    have hstep : putAll buf (x :: rest) v = putAll (store buf x v) rest v := rfl
    rw [hstep, ih]
    by_cases h1 : s ∈ rest
    · simp [h1]
    · by_cases h2 : s = x
      · simp [h2, store]
      · simp [h1, h2, store]

theorem foldl_put {θ : Type} (g : Nat → Nat) (v : Nat) (ks : List Nat) :
    ∀ st : EncodeAudio.Fill θ,
      ks.foldl (fun s k => s.put (g k) v) st =
        ⟨putAll st.buf (ks.map g) v, st.t, st.stores ++ ks.map g⟩ := by
  induction ks with
  | nil => intro st; simp [putAll]
  | cons k rest ih =>
    intro st
    rw [List.foldl_cons, ih]
    simp [EncodeAudio.Fill.put, putAll]

theorem sampleStep_eq {θ : Type} (tone : EncodeAudio.Tone θ) (sampleRate channels : Int)
    (v : Nat) (st : EncodeAudio.Fill θ) (j : Nat) :
    EncodeAudio.sampleStep tone sampleRate channels v st j =
      ⟨putAll st.buf (sampleSlots channels j) v, tone.advance sampleRate st.t,
        st.stores ++ sampleSlots channels j⟩ := by
  unfold EncodeAudio.sampleStep
  simp only [foldl_put]
  simp [EncodeAudio.Fill.put, putAll, sampleSlots]

theorem foldl_sampleStep {θ : Type} (tone : EncodeAudio.Tone θ) (sampleRate channels : Int)
    (v : Nat) (js : List Nat) :
    ∀ st : EncodeAudio.Fill θ,
      js.foldl (EncodeAudio.sampleStep tone sampleRate channels v) st =
        ⟨putAll st.buf (js.flatMap (sampleSlots channels)) v,
          (tone.advance sampleRate)^[js.length] st.t,
          st.stores ++ js.flatMap (sampleSlots channels)⟩ := by
  induction js with
  | nil => intro st; simp [putAll]
  | cons j rest ih =>
    intro st
    rw [List.foldl_cons, ih, sampleStep_eq]
    simp [putAll, List.flatMap_cons]

theorem audio_fillFrame_eq {θ : Type} (tone : EncodeAudio.Tone θ)
    (sampleRate frameSize channels : Int) (st : EncodeAudio.Fill θ) :
    EncodeAudio.fillFrame tone sampleRate frameSize channels st =
      ⟨putAll st.buf (frameSlots frameSize channels) (tone.sample st.t),
        (tone.advance sampleRate)^[frameSize.toNat] st.t,
        st.stores ++ frameSlots frameSize channels⟩ := by
  unfold EncodeAudio.fillFrame
  simp only [foldl_sampleStep, List.length_range]
  rfl

theorem mem_frameSlots (frameSize channels : Int) (s : Nat) :
    s ∈ frameSlots frameSize channels ↔
      ∃ j, j < frameSize.toNat ∧
        (s = j * 2 ∨ ∃ k, 1 ≤ k ∧ k < channels.toNat ∧ s = j * 2 + k) := by
  unfold frameSlots sampleSlots
  simp only [List.mem_flatMap, List.mem_range, List.mem_cons, List.mem_map, List.mem_range'_1]
  constructor
  · rintro ⟨j, hj, h | ⟨k, ⟨hk1, hk2⟩, rfl⟩⟩
    · exact ⟨j, hj, Or.inl h⟩
    · exact ⟨j, hj, Or.inr ⟨k, hk1, by omega, rfl⟩⟩
  · rintro ⟨j, hj, h | ⟨k, hk1, hk2, rfl⟩⟩
    · exact ⟨j, hj, Or.inl h⟩
    · exact ⟨j, hj, Or.inr ⟨k, ⟨hk1, by omega⟩, rfl⟩⟩

theorem foldl_untouched {α : Type} (off : Nat) (xs : List α)
    (step : (Nat → Nat) → α → (Nat → Nat))
    (h : ∀ d x, x ∈ xs → step d x off = d off) :
    ∀ d, xs.foldl step d off = d off := by
  induction xs with
  | nil => intro d; rfl
  | cons x rest ih =>
    intro d
    rw [List.foldl_cons, ih (fun d y hy => h d y (List.mem_cons_of_mem _ hy))]
    exact h d x (List.mem_cons_self _ _)

theorem fillLuma_untouched (width height linesize i off : Nat) (d : Nat → Nat)
    (h : ∀ y, y < u8 height → ∀ x, x < u8 width → off ≠ y * linesize + x * 1) :
    EncodeVideo.fillLuma width height linesize i d off = d off := by
  unfold EncodeVideo.fillLuma
  apply foldl_untouched
  intro d1 y hy
  apply foldl_untouched
  intro d2 x hx
  exact if_neg (h y (List.mem_range.mp hy) x (List.mem_range.mp hx))

theorem fillCb_untouched (width height linesize i off : Nat) (d : Nat → Nat)
    (h : ∀ y, y < u8 height / 2 → ∀ x, x < u8 width / 2 → off ≠ y * linesize + x * 1) :
    EncodeVideo.fillCb width height linesize i d off = d off := by
  unfold EncodeVideo.fillCb
  apply foldl_untouched
  intro d1 y hy
  apply foldl_untouched
  intro d2 x hx
  exact if_neg (h y (List.mem_range.mp hy) x (List.mem_range.mp hx))

theorem fillCr_untouched (width height linesize i off : Nat) (d : Nat → Nat)
    (h : ∀ y, y < u8 height / 2 → ∀ x, x < u8 width / 2 → off ≠ y * linesize + x * 1) :
    EncodeVideo.fillCr width height linesize i d off = d off := by
  unfold EncodeVideo.fillCr
  apply foldl_untouched
  intro d1 y hy
  apply foldl_untouched
  intro d2 x hx
  exact if_neg (h y (List.mem_range.mp hy) x (List.mem_range.mp hx))

/-- C7 (what the code does): at the configured 325x288, with row strides 352,
176 and 176, the loop bounds of the generator are uint8(325) = 69 and
uint8(288) = 32, and for every frame index and every earlier content of the
planes it leaves luma pixels (69, 0) and (0, 32), first-chroma pixel (34, 0)
and second-chroma pixel (0, 16) as they were. On planes of zeros, luma pixel
(69, 0) of frame 0 is 0 and not (69 + 0 + 3*0) mod 256. -/
theorem video_fill_stops_at_uint8_bounds (i : Nat) (p : EncodeVideo.Planes) :
    u8 325 = 69 ∧ u8 288 = 32 ∧
    (EncodeVideo.fillFrame 325 288 352 176 176 i p).data0 (0 * 352 + 69) =
      p.data0 (0 * 352 + 69) ∧
    (EncodeVideo.fillFrame 325 288 352 176 176 i p).data0 (32 * 352 + 0) =
      p.data0 (32 * 352 + 0) ∧
    (EncodeVideo.fillFrame 325 288 352 176 176 i p).data1 (0 * 176 + 34) =
      p.data1 (0 * 176 + 34) ∧
    (EncodeVideo.fillFrame 325 288 352 176 176 i p).data2 (16 * 176 + 0) =
      p.data2 (16 * 176 + 0) ∧
    (EncodeVideo.fillFrame 325 288 352 176 176 0
      ⟨fun _ => 0, fun _ => 0, fun _ => 0⟩).data0 (0 * 352 + 69) ≠ (69 + 0 + 3 * 0) % 256 := by
  have hw : u8 325 = 69 := rfl
  have hh : u8 288 = 32 := rfl
  refine ⟨hw, hh, ?_, ?_, ?_, ?_, ?_⟩
  · apply fillLuma_untouched
    intro y hy x hx
    rw [hh] at hy
    rw [hw] at hx
    omega
  · apply fillLuma_untouched
    intro y hy x hx
    rw [hh] at hy
    rw [hw] at hx
    omega
  · apply fillCb_untouched
    intro y hy x hx
    rw [hh] at hy
    rw [hw] at hx
    omega
  · apply fillCr_untouched
    intro y hy x hx
    rw [hh] at hy
    rw [hw] at hx
    omega
  · have h0 : (EncodeVideo.fillFrame 325 288 352 176 176 0
        ⟨fun _ => 0, fun _ => 0, fun _ => 0⟩).data0 (0 * 352 + 69) = 0 := by
      apply fillLuma_untouched
      intro y hy x hx
      rw [hh] at hy
      rw [hw] at hx
      omega
    rw [h0]
    decide

/-- C9 (what the code does): the sample value is computed once, from the phase
at the start of the frame, before the sample loop. In a stereo frame of 1152
samples, both channels of sample 1 hold the value of the start phase, while
the phase itself has advanced 1152 times when the frame is done. With the
counting tone, sample 1 of frame 0 is 0, not the value 1 of the phase after
one increment. -/
theorem audio_sample_value_fixed_per_frame {θ : Type} (tone : EncodeAudio.Tone θ)
    (sampleRate : Int) (st : EncodeAudio.Fill θ) :
    (EncodeAudio.fillFrame tone sampleRate 1152 2 st).buf (2 * 1) = tone.sample st.t ∧
    (EncodeAudio.fillFrame tone sampleRate 1152 2 st).buf (2 * 1 + 1) = tone.sample st.t ∧
    (EncodeAudio.fillFrame tone sampleRate 1152 2 st).t =
      (tone.advance sampleRate)^[1152] st.t ∧
    (EncodeAudio.fillFrame countingTone 44100 1152 2
      ⟨fun _ => 0, countingTone.zero, []⟩).buf (2 * 1) = 0 ∧
    countingTone.sample (countingTone.advance 44100 countingTone.zero) = 1 := by
  have hm2 : 2 * 1 ∈ frameSlots 1152 2 :=
    (mem_frameSlots 1152 2 (2 * 1)).mpr ⟨1, by decide, Or.inl (by decide)⟩
  have hm3 : 2 * 1 + 1 ∈ frameSlots 1152 2 :=
    (mem_frameSlots 1152 2 (2 * 1 + 1)).mpr
      ⟨1, by decide, Or.inr ⟨1, by decide, by decide, by decide⟩⟩
  refine ⟨?_, ?_, ?_, ?_, rfl⟩
  · rw [audio_fillFrame_eq]
    simp only [putAll_apply, hm2, ↓reduceIte]
  · rw [audio_fillFrame_eq]
    simp only [putAll_apply, hm3, ↓reduceIte]
  · rw [audio_fillFrame_eq]
    have h1152 : (1152 : Int).toNat = 1152 := by decide
    simp only [h1152]
  · rw [audio_fillFrame_eq]
    simp only [putAll_apply, hm2, ↓reduceIte]
    rfl

/-- The generator steps two slots per sample whatever the channel count. With a
channel count of 1, which the driver does not negotiate from a layout list
that holds a stereo layout, a frame of 1152 samples stores to slot 2302
(sample 1151), which is not below 1152 * 1, and a frame of 2 samples stores to
slots 0 and 2. -/
theorem audio_mono_store_outside_buffer {θ : Type} (tone : EncodeAudio.Tone θ)
    (sampleRate : Int) (st : EncodeAudio.Fill θ) :
    2302 ∈ (EncodeAudio.fillFrame tone sampleRate 1152 1 st).stores ∧
    ¬ (2302 < 1152 * 1) ∧
    (EncodeAudio.fillFrame tone sampleRate 2 1 st).stores = st.stores ++ [0, 2] := by
  refine ⟨?_, by decide, ?_⟩
  · rw [audio_fillFrame_eq]
    apply List.mem_append_right
    exact (mem_frameSlots 1152 1 2302).mpr ⟨1151, by decide, Or.inl (by decide)⟩
  · rw [audio_fillFrame_eq]
    rfl

/-! ## What the generators do store -/

theorem foldl_set_once {α : Type} (off v : Nat) (x0 : α)
    (step : (Nat → Nat) → α → (Nat → Nat)) (xs : List α) (hnd : xs.Nodup) (hmem : x0 ∈ xs)
    (hset : ∀ d, step d x0 off = v)
    (hother : ∀ d x, x ∈ xs → x ≠ x0 → step d x off = d off) :
    ∀ d, xs.foldl step d off = v := by
  induction xs with
  | nil => exact absurd hmem (List.not_mem_nil _)
  | cons x rest ih =>
    intro d
    rw [List.foldl_cons]
    have hnd2 := List.nodup_cons.mp hnd
    by_cases hx : x = x0
    · subst hx
      rw [foldl_untouched off rest step]
      · exact hset d
      · intro d1 y hy
        apply hother d1 y (List.mem_cons_of_mem _ hy)
        intro hyx
        exact hnd2.1 (hyx ▸ hy)
    · have hm : x0 ∈ rest := by
        rcases List.mem_cons.mp hmem with h | h
        · exact absurd h.symm hx
        · exact h
      exact ih hnd2.2 hm (fun d1 y hy hne => hother d1 y (List.mem_cons_of_mem _ hy) hne) _

theorem row_offset_inj (ls y x y0 x0 : Nat) (hx : x < ls) (hx0 : x0 < ls)
    (h : y0 * ls + x0 = y * ls + x * 1) : y = y0 ∧ x = x0 := by
  have hls : 0 < ls := by omega
  have h1 : (x0 + y0 * ls) / ls = y0 := by
    rw [Nat.add_mul_div_right _ _ hls, Nat.div_eq_of_lt hx0, Nat.zero_add]
  have h2 : (x + y * ls) / ls = y := by
    rw [Nat.add_mul_div_right _ _ hls, Nat.div_eq_of_lt hx, Nat.zero_add]
  have h3 : x0 + y0 * ls = x + y * ls := by omega
  have hy : y = y0 := by rw [← h2, ← h1, h3]
  subst hy
  exact ⟨rfl, by omega⟩

theorem foldl_grid_at (rows cols ls : Nat) (val : Nat → Nat → Nat) (hcols : cols ≤ ls)
    (y0 x0 : Nat) (hy : y0 < rows) (hx : x0 < cols) (d : Nat → Nat) :
    ((List.range rows).foldl
      (fun d y => (List.range cols).foldl
        (fun d x => store d (y * ls + x * 1) (val x y)) d) d) (y0 * ls + x0) = val x0 y0 := by
  apply foldl_set_once (y0 * ls + x0) (val x0 y0) y0 _ _ (List.nodup_range rows)
    (List.mem_range.mpr hy)
  · intro d1
    apply foldl_set_once (y0 * ls + x0) (val x0 y0) x0 _ _ (List.nodup_range cols)
      (List.mem_range.mpr hx)
    · intro d2
      simp [store]
    · intro d2 x hxm hne
      apply if_neg
      intro h
      exact hne (row_offset_inj ls y0 x y0 x0 (by have := List.mem_range.mp hxm; omega)
        (by omega) h).2
  · intro d1 y _ hne
    apply foldl_untouched
    intro d2 x hxm
    apply if_neg
    intro h
    exact hne (row_offset_inj ls y x y0 x0 (by have := List.mem_range.mp hxm; omega)
      (by omega) h).1

/-- Inside the block the `uint8` bounds leave, the generator stores the
gradient of the source: luma `(x + y + 3i) mod 256`, first chroma
`(128 + y + 2i) mod 256`, second chroma `(64 + x + 5i) mod 256`, each at
offset `y * linesize + x`, for row strides at least the truncated width. -/
theorem video_fill_inside_uint8_block (width height ls0 ls1 ls2 i : Nat)
    (p : EncodeVideo.Planes) (x y : Nat) :
    (x < u8 width → y < u8 height → u8 width ≤ ls0 →
      (EncodeVideo.fillFrame width height ls0 ls1 ls2 i p).data0 (y * ls0 + x) =
        (x + y + 3 * i) % 256) ∧
    (x < u8 width / 2 → y < u8 height / 2 → u8 width / 2 ≤ ls1 →
      (EncodeVideo.fillFrame width height ls0 ls1 ls2 i p).data1 (y * ls1 + x) =
        (128 + y + 2 * i) % 256) ∧
    (x < u8 width / 2 → y < u8 height / 2 → u8 width / 2 ≤ ls2 →
      (EncodeVideo.fillFrame width height ls0 ls1 ls2 i p).data2 (y * ls2 + x) =
        (64 + x + 5 * i) % 256) := by
  refine ⟨?_, ?_, ?_⟩
  · intro hx hy hls
    show EncodeVideo.fillLuma width height ls0 i p.data0 (y * ls0 + x) = _
    unfold EncodeVideo.fillLuma
    rw [foldl_grid_at (u8 height) (u8 width) ls0 (fun x y => u8 (u8 (x + y) + u8 (i * 3)))
      hls y x hy hx]
    simp only [u8]
    omega
  · intro hx hy hls
    show EncodeVideo.fillCb width height ls1 i p.data1 (y * ls1 + x) = _
    unfold EncodeVideo.fillCb
    rw [foldl_grid_at (u8 height / 2) (u8 width / 2) ls1
      (fun _ y => u8 (u8 (128 + y) + u8 (i * 2))) hls y x hy hx]
    simp only [u8]
    omega
  · intro hx hy hls
    show EncodeVideo.fillCr width height ls2 i p.data2 (y * ls2 + x) = _
    unfold EncodeVideo.fillCr
    rw [foldl_grid_at (u8 height / 2) (u8 width / 2) ls2
      (fun x _ => u8 (u8 (64 + x) + u8 (i * 5))) hls y x hy hx]
    simp only [u8]
    omega

/-- Every slot the audio generator stores to in a frame holds, when the frame
is done, the sample value of the phase the frame started with. -/
theorem audio_frame_slots_hold_start_value {θ : Type} (tone : EncodeAudio.Tone θ)
    (sampleRate frameSize channels : Int) (st : EncodeAudio.Fill θ) (s : Nat)
    (hs : s ∈ frameSlots frameSize channels) :
    (EncodeAudio.fillFrame tone sampleRate frameSize channels st).buf s = tone.sample st.t := by
  rw [audio_fillFrame_eq]
  simp only [putAll_apply, hs, ↓reduceIte]

/-- With two or more channels every slot the audio generator stores to lies
inside the buffer of `frameSize * channels` slots. -/
theorem audio_stores_inside_buffer_from_stereo (frameSize channels : Int) (s : Nat)
    (hc : 2 ≤ channels) (hs : s ∈ frameSlots frameSize channels) :
    s < frameSize.toNat * channels.toNat := by
  obtain ⟨j, hj, h⟩ := (mem_frameSlots frameSize channels s).mp hs
  have hc2 : 2 ≤ channels.toNat := by omega
  have hmul : (j + 1) * channels.toNat ≤ frameSize.toNat * channels.toNat :=
    Nat.mul_le_mul_right _ hj
  have hj2 : j * 2 ≤ j * channels.toNat := Nat.mul_le_mul_left _ hc2
  have hexp : (j + 1) * channels.toNat = j * channels.toNat + channels.toNat := by ring
  rcases h with rfl | ⟨k, _, hk, rfl⟩ <;> omega

theorem negotiated_channels_ge_two (nb : Nat → Int) (stereo : Nat) (layouts : List Nat)
    (hstereo : nb stereo = 2) (hlist : layouts = [] ∨ ∃ v ∈ layouts, 2 ≤ nb v) :
    2 ≤ nb (selectChanelLayout nb stereo layouts) := by
  rcases hlist with rfl | ⟨v, hv, hv2⟩
  · simp [selectChanelLayout, hstereo]
  · have hne : ¬ layouts.length = 0 := by
      intro h
      rw [List.length_eq_zero.mp h] at hv
      cases hv
    unfold selectChanelLayout
    rw [if_neg hne]
    rcases selectChanelLayoutLoop_spec nb layouts 0 0 with
      ⟨_, hmax⟩ | ⟨pre, post, hsplit, _, hpre, hpost⟩
    · have := hmax v hv
      omega
    · rw [hsplit] at hv
      rcases List.mem_append.mp hv with hm | hm
      · have := hpre v hm
        omega
      · rcases List.mem_cons.mp hm with hm | hm
        · rw [← hm]
          exact hv2
        · have := hpost v hm
          omega

/-- C10: the channel count of the frame is the one the driver negotiates: the
channel count of the layout selectChanelLayout picks from the codec's list.
When that list is empty (stereo, two channels, is taken) or holds a layout of
two or more channels, as the lists of the MP2 encoders do, the count is at
least 2 and so at least 1; for every frame size the slots the generator
stores to are exactly slot 2*j and slot 2*j + k for 1 <= k < channels, for
0 <= j < frameSize; and every one of them is below frameSize * channels. -/
theorem audio_stores_inside_buffer {ε τ θ : Type} (env : EncodeAudio.Env ε τ θ)
    (codec : EncodeAudio.Codec) (sampleRate : Int) (buf : Nat → Nat) (t : θ)
    (hstereo : env.nbChannelsOf env.AV_CH_LAYOUT_STEREO = 2)
    (hlist : codec.channelLayouts = [] ∨
      ∃ v ∈ codec.channelLayouts, 2 ≤ env.nbChannelsOf v) :
    1 ≤ env.nbChannelsOf
      (selectChanelLayout env.nbChannelsOf env.AV_CH_LAYOUT_STEREO codec.channelLayouts) ∧
    (∀ s, s ∈ (EncodeAudio.fillFrame env.tone sampleRate env.frameSize
        (env.nbChannelsOf
          (selectChanelLayout env.nbChannelsOf env.AV_CH_LAYOUT_STEREO codec.channelLayouts))
        ⟨buf, t, []⟩).stores ↔
      ∃ j, j < env.frameSize.toNat ∧
        (s = j * 2 ∨ ∃ k, 1 ≤ k ∧
          k < (env.nbChannelsOf (selectChanelLayout env.nbChannelsOf env.AV_CH_LAYOUT_STEREO
            codec.channelLayouts)).toNat ∧ s = j * 2 + k)) ∧
    (∀ s, s ∈ (EncodeAudio.fillFrame env.tone sampleRate env.frameSize
        (env.nbChannelsOf
          (selectChanelLayout env.nbChannelsOf env.AV_CH_LAYOUT_STEREO codec.channelLayouts))
        ⟨buf, t, []⟩).stores →
      s < env.frameSize.toNat *
        (env.nbChannelsOf (selectChanelLayout env.nbChannelsOf env.AV_CH_LAYOUT_STEREO
          codec.channelLayouts)).toNat) := by
  have hch := negotiated_channels_ge_two env.nbChannelsOf env.AV_CH_LAYOUT_STEREO
    codec.channelLayouts hstereo hlist
  refine ⟨by omega, ?_, ?_⟩
  · intro s
    rw [audio_fillFrame_eq]
    simp only [List.nil_append]
    exact mem_frameSlots _ _ s
  · intro s hs
    rw [audio_fillFrame_eq] at hs
    simp only [List.nil_append] at hs
    exact audio_stores_inside_buffer_from_stereo _ _ s hch hs

theorem audio_stores_inside_buffer_witness :
    (sampleAudioEnv ⟨[1], [44100], [4, 3]⟩).nbChannelsOf
      (sampleAudioEnv ⟨[1], [44100], [4, 3]⟩).AV_CH_LAYOUT_STEREO = 2 ∧
    selectChanelLayout popcount 3 [4, 3] = 3 ∧
    popcount 3 = 2 ∧
    (sampleAudioEnv ⟨[1], [44100], [4, 3]⟩).frameSize = 1152 ∧
    (∀ s, s ∈ (EncodeAudio.fillFrame (sampleAudioEnv ⟨[1], [44100], [4, 3]⟩).tone 44100
        (sampleAudioEnv ⟨[1], [44100], [4, 3]⟩).frameSize
        ((sampleAudioEnv ⟨[1], [44100], [4, 3]⟩).nbChannelsOf
          (selectChanelLayout (sampleAudioEnv ⟨[1], [44100], [4, 3]⟩).nbChannelsOf
            (sampleAudioEnv ⟨[1], [44100], [4, 3]⟩).AV_CH_LAYOUT_STEREO
            (⟨[1], [44100], [4, 3]⟩ : EncodeAudio.Codec).channelLayouts))
        ⟨fun _ => 0, 0, []⟩).stores →
      s < (sampleAudioEnv ⟨[1], [44100], [4, 3]⟩).frameSize.toNat *
        ((sampleAudioEnv ⟨[1], [44100], [4, 3]⟩).nbChannelsOf
          (selectChanelLayout (sampleAudioEnv ⟨[1], [44100], [4, 3]⟩).nbChannelsOf
            (sampleAudioEnv ⟨[1], [44100], [4, 3]⟩).AV_CH_LAYOUT_STEREO
            (⟨[1], [44100], [4, 3]⟩ : EncodeAudio.Codec).channelLayouts)).toNat) :=
  ⟨by decide, by decide, by decide, rfl,
    (audio_stores_inside_buffer (sampleAudioEnv ⟨[1], [44100], [4, 3]⟩) ⟨[1], [44100], [4, 3]⟩
      44100 (fun _ => 0) 0 (by decide) (Or.inr ⟨3, by decide, by decide⟩)).2.2⟩

/-! ## Fuel -/

theorem encodeLoop_fuel_stable {ε φ τ : Type} (E : Encoder ε φ) (S : Sink τ) (c : AvErrors)
    (fuel : Nat) : ∀ (ret : Int) (e : ε) (t : τ),
      (EncodeAudio.encodeLoop E S c fuel ret e t).outcome ≠ Outcome.unfinished →
      ∀ k, EncodeAudio.encodeLoop E S c (fuel + k) ret e t =
        EncodeAudio.encodeLoop E S c fuel ret e t := by
  induction fuel with
  | zero =>
    intro ret e t h k
    by_cases hret : ret ≥ 0
    · simp [EncodeAudio.encodeLoop, hret] at h
    · cases k with
      | zero => rfl
      | succ k => simp [EncodeAudio.encodeLoop, hret]
  | succ n ih =>
    intro ret e t h k
    have hk : n + 1 + k = (n + k) + 1 := by omega
    rw [hk]
    unfold EncodeAudio.encodeLoop at h ⊢
    by_cases hret : ret ≥ 0
    · simp only [hret, ↓reduceIte] at h ⊢
      by_cases hstop : (E.receivePacket e).1.1 = c.AVERROR_EAGAIN ∨
          (E.receivePacket e).1.1 = c.AVERROR_EOF
      · simp only [hstop, ↓reduceIte]
      · simp only [hstop, ↓reduceIte] at h ⊢
        by_cases hneg : (E.receivePacket e).1.1 < 0
        · simp only [hneg, ↓reduceIte]
        · simp only [hneg, ↓reduceIte] at h ⊢
          by_cases hw : (S.write t (E.receivePacket e).1.2).1 = true
          · simp only [hw, ↓reduceIte]
          · simp only [hw, Bool.false_eq_true, ↓reduceIte] at h ⊢
            rw [ih _ _ _ h k]
    · simp only [hret, ↓reduceIte]

/-- Once a call of encode has ended (returned or fatal) with some fuel, more
fuel gives the same run. -/
theorem encode_fuel_stable {ε φ τ : Type} (E : Encoder ε φ) (S : Sink τ) (c : AvErrors)
    (fuel : Nat) (frame : Option φ) (e : ε) (t : τ)
    (h : (EncodeAudio.encode E S c fuel frame e t).outcome ≠ Outcome.unfinished) (k : Nat) :
    EncodeAudio.encode E S c (fuel + k) frame e t = EncodeAudio.encode E S c fuel frame e t := by
  unfold EncodeAudio.encode at h ⊢
  by_cases hs : (E.sendFrame e frame).1 < 0
  · simp only [hs, ↓reduceIte]
  · simp only [hs, ↓reduceIte] at h ⊢
    rw [encodeLoop_fuel_stable E S c fuel _ _ _ h k]

end GoavExamples
